import Mathlib

/-!
# Verification of the omnibooker backend core

A shallow embedding, in Lean, of the core scheduling / booking logic of the
omnibooker backend (`applications/backend/src/omnibooker_backend`), together
with theorems about the embedded functions.

Modelling conventions:

* Instants (`datetime` values) are modelled as integer **seconds** since the
  epoch 1970-01-01T00:00:00.  Python `datetime` stores microseconds as well,
  but every value produced by the code under study is second-aligned, and the
  comparisons involved are order-theoretic, so second granularity is an exact
  model for the functions embedded here.
* Naive UTC datetimes (as stored in the database) and aware datetimes are both
  plain `Int` seconds; `_normalize_datetime` is therefore the identity.
* IANA timezones are modelled as fixed UTC offsets (`tzOffset`, in seconds),
  the injected deterministic timezone model the design notes call for.
  Daylight-saving transitions are outside this model.
* Python `//` and `%` are floor division / floor modulus, exactly Lean's
  `/` and `%` on `Int`.
* The proleptic Gregorian calendar (`datetime`'s calendar) is modelled by a
  pair of conversion functions between day numbers (days since 1970-01-01)
  and civil triples (year, month, day); `calendar.monthrange(y, m)[1]` is
  `monthLen y m`.
-/

/-- Is `y` a leap year in the proleptic Gregorian calendar
(`calendar.isleap`). -/
def isLeap (y : Int) : Bool :=
  (y % 4 == 0 && y % 100 != 0) || (y % 400 == 0)

/-- Number of days in month `m` of year `y`: `calendar.monthrange(y, m)[1]`. -/
def monthLen (y m : Int) : Int :=
  if m = 2 then (if isLeap y then 29 else 28)
  else if m = 4 ∨ m = 6 ∨ m = 9 ∨ m = 11 then 30
  else 31

/-- Day number (relative to March 1 of year-of-era 0) at which year-of-era
`t` starts, counting shifted years that run March..February. -/
def yearStartI (t : Int) : Int := 365 * t + t / 4 - t / 100

/-- Day number (days since 1970-01-01) of the civil date `(y, m, d)` in the
proleptic Gregorian calendar. -/
def civilToDays (y m d : Int) : Int :=
  let y' := if m ≤ 2 then y - 1 else y
  let era := y' / 400
  let yoe := y' - era * 400
  let mp := (m + 9) % 12
  let doy := (153 * mp + 2) / 5 + d - 1
  let doe := yearStartI yoe + doy
  era * 146097 + doe - 719468

/-- Year-of-era (in `[0, 399]`) containing day-of-era `doe`. -/
def yoeOfDoe (doe : Int) : Int :=
  let e := (400 * doe) / 146097
  if e ≤ 398 ∧ yearStartI (e + 1) ≤ doe then e + 1 else e

/-- Day-of-(shifted-)year for day-of-era `doe`. -/
def doyOfDoe (doe : Int) : Int := doe - yearStartI (yoeOfDoe doe)

/-- Shifted month (`0` = March .. `11` = February) of a day-of-year. -/
def mpOfDoy (doy : Int) : Int := (5 * doy + 2) / 153

/-- Year-of-era, month and day for a day-of-era `doe ∈ [0, 146096]`
(era-local part of the day-number-to-civil conversion). -/
def civilFromDoe (doe : Int) : Int × Int × Int :=
  let yoe := yoeOfDoe doe
  let doy := doyOfDoe doe
  let mp := mpOfDoy doy
  let d := doy - (153 * mp + 2) / 5 + 1
  let m := if mp < 10 then mp + 3 else mp - 9
  (yoe, m, d)

/-- Civil date `(y, m, d)` of day number `z0` (days since 1970-01-01) in the
proleptic Gregorian calendar.  Inverse of `civilToDays`. -/
def daysToCivil (z0 : Int) : Int × Int × Int :=
  let z := z0 + 719468
  let era := z / 146097
  let doe := z - era * 146097
  let yoe := (civilFromDoe doe).1
  let m := (civilFromDoe doe).2.1
  let d := (civilFromDoe doe).2.2
  let y := yoe + era * 400
  (if m ≤ 2 then y + 1 else y, m, d)

/-- `(year, month)` of a month index (`monthIdx y m = 12 * y + m - 1`,
the `total_months` decomposition used by the scheduler). -/
def monthOfIdx (idx : Int) : Int × Int := (idx / 12, idx % 12 + 1)

/-- Day number of the first day of the month with month index `idx`. -/
def monthStart (idx : Int) : Int :=
  civilToDays (monthOfIdx idx).1 (monthOfIdx idx).2 1

/- Time-of-day helpers (all instants in seconds). -/

/-- Start of the civil day containing `t` (seconds). -/
def dayFloor (t : Int) : Int := t - t % 86400

/-- `replace(second=0, microsecond=0)`: floor to the whole minute. -/
def minuteFloor (t : Int) : Int := t - t % 60

/-- Seconds elapsed since the start of the day (the time-of-day of `t`). -/
def secOfDay (t : Int) : Int := t % 86400

/-- Day number (days since the epoch) of the instant `t`. -/
def dayNumber (t : Int) : Int := t / 86400

/-- `datetime.weekday()`: Monday = 0 .. Sunday = 6.  Day 0 (1970-01-01) is a
Thursday, hence weekday 3. -/
def pyWeekday (t : Int) : Int := (dayNumber t + 3) % 7

/-- Python `value or default` for an optional integer column: `None` and `0`
are both falsy and fall back to the default. -/
def orDefaultInt (v : Option Int) (dflt : Int) : Int :=
  match v with
  | none => dflt
  | some x => if x = 0 then dflt else x

/-- `models.FrequencyEnum`. -/
inductive Frequency
  | weekly
  | fortnightly
  | monthly
deriving DecidableEq, Repr

/-- `models.AttemptStrategyEnum`. -/
inductive AttemptStrategy
  | offset
  | release
deriving DecidableEq, Repr

/-- `models.TaskStatusEnum`. -/
inductive TaskStatus
  | pending
  | processing
  | success
  | failed
  | cancelled
deriving DecidableEq, Repr

/-- `models.BookingSlot`, restricted to the fields the scheduler reads.
The `time` and `release_time` "HH:MM" strings are stored parsed; the IANA
timezone is modelled by its fixed UTC offset `tzOffset` (seconds). -/
structure BookingSlot where
  id : Nat
  frequency : Frequency
  dayOfWeek : Option Int
  dayOfMonth : Option Int
  timeHour : Int
  timeMinute : Int
  tzOffset : Int
  isActive : Bool
  attemptStrategy : AttemptStrategy
  attemptOffsetDays : Int
  attemptOffsetHours : Int
  attemptOffsetMinutes : Int
  releaseDaysBefore : Int
  releaseTime : Option (Int × Int)
deriving DecidableEq, Repr

/-- `models.BookingTask`, restricted to the fields the scheduler reads and
writes (`error_message`, `attempted_at` and the autogenerated primary key are
not touched by the scheduler). -/
structure BookingTask where
  slotId : Nat
  scheduledDate : Int
  attemptAt : Option Int
  status : TaskStatus
deriving DecidableEq, Repr

/-- `_slot_day_of_week`: translate the caller-facing weekday column
(0 = Sunday .. 6 = Saturday) to Python's `weekday()` convention
(0 = Monday .. 6 = Sunday). -/
def slotDayOfWeek (s : BookingSlot) : Option Int :=
  match s.dayOfWeek with
  | none => none
  | some dow => some ((dow % 7 + 6) % 7)

/-- The slot's local time-of-day, in seconds. -/
def slotTimeSec (s : BookingSlot) : Int := s.timeHour * 3600 + s.timeMinute * 60

/-- The recurrence period in days: `7 if slot.frequency == weekly else 14`
(only used on the weekly/fortnightly branch). -/
def slotIncrement (s : BookingSlot) : Int :=
  if s.frequency = Frequency.weekly then 7 else 14

/-- `_normalize_datetime`: aware and naive datetimes are both UTC seconds in
this model, so normalisation is the identity. -/
def normalizeDatetime (t : Int) : Int := t

/-- `base_local = base_date.astimezone(tz)` in the fixed-offset model. -/
def baseLocalOf (s : BookingSlot) (baseDate : Int) : Int := baseDate + s.tzOffset

/-- The `result` of `_calculate_next_occurrence` before the frequency branch:
seconds zeroed and the local time-of-day replaced by the slot's `time`. -/
def resultTimeOf (s : BookingSlot) (baseDate : Int) : Int :=
  dayFloor (minuteFloor (baseLocalOf s baseDate)) + slotTimeSec s

/-- `desired_day = slot.day_of_month or 1`. -/
def desiredDayOf (s : BookingSlot) : Int := orDefaultInt s.dayOfMonth 1

/-- `base_local`'s civil date (`base_local.year`, `.month`, `.day`). -/
def baseCivilOf (s : BookingSlot) (baseDate : Int) : Int × Int × Int :=
  daysToCivil (dayNumber (baseLocalOf s baseDate))

/-- `candidate = result.replace(day=safe_day)` where
`safe_day = min(desired_day, monthrange(base_local.year, base_local.month))`:
`result` lies on `base_local`'s civil day (only its time-of-day was
replaced), so this is day `safe_day` of `base_local`'s month carrying
`result`'s time-of-day. -/
def monthlyCandidateOf (s : BookingSlot) (baseDate : Int) : Int :=
  civilToDays (baseCivilOf s baseDate).1 (baseCivilOf s baseDate).2.1
      (min (desiredDayOf s)
        (monthLen (baseCivilOf s baseDate).1 (baseCivilOf s baseDate).2.1)) * 86400
    + secOfDay (resultTimeOf s baseDate)

/-- `total_months = (base_local.year * 12 + base_local.month - 1) + month_delta`
with `month_delta = offset` plus one when the candidate is not strictly after
`base_local`. -/
def monthlyTotalMonthsOf (s : BookingSlot) (baseDate : Int) (offset : Int) : Int :=
  (baseCivilOf s baseDate).1 * 12 + (baseCivilOf s baseDate).2.1 - 1 +
    (offset +
      if monthlyCandidateOf s baseDate ≤ baseLocalOf s baseDate then 1 else 0)

/-- `_calculate_next_occurrence(slot, base_date, offset)`.  The final
`result.replace(year=…, month=…, day=…)` carries `result`'s time-of-day. -/
def calculateNextOccurrence (s : BookingSlot) (baseDate : Int) (offset : Int) : Int :=
  let baseLocal := baseLocalOf s baseDate
  let result1 := resultTimeOf s baseDate
  match s.frequency with
  | .weekly | .fortnightly =>
    let targetDay := orDefaultInt (slotDayOfWeek s) 0
    let daysUntilNext := (targetDay - pyWeekday baseLocal + 7) % 7
    let increment := slotIncrement s
    let r := result1 + (daysUntilNext + offset * increment) * 86400
    let r2 := if r ≤ baseLocal then r + increment * 86400 else r
    r2 - s.tzOffset
  | .monthly =>
    let totalMonths := monthlyTotalMonthsOf s baseDate offset
    let year := totalMonths / 12
    let month := totalMonths % 12 + 1
    let targetDays := monthLen year month
    let safeDay2 := min (desiredDayOf s) targetDays
    let r := civilToDays year month safeDay2 * 86400 + secOfDay result1
    r - s.tzOffset

/-- The strategy part of `_calculate_attempt_at` (before the reference
clamp). -/
def calculateAttemptAtRaw (s : BookingSlot) (scheduledAt : Int) : Int :=
  let scheduledLocal := scheduledAt + s.tzOffset
  match s.attemptStrategy with
  | .release =>
    let rt := s.releaseTime.getD (0, 0)
    let candidate := scheduledLocal - s.releaseDaysBefore * 86400
    let attemptLocal := dayFloor candidate + rt.1 * 3600 + rt.2 * 60
    attemptLocal - s.tzOffset
  | .offset =>
    let totalOffsetMinutes :=
      s.attemptOffsetDays * 24 * 60 + s.attemptOffsetHours * 60 + s.attemptOffsetMinutes
    (scheduledLocal - totalOffsetMinutes * 60) - s.tzOffset

/-- `_calculate_attempt_at(slot, scheduled_at, reference=…)`. -/
def calculateAttemptAt (s : BookingSlot) (scheduledAt : Int) (reference : Option Int) :
    Int :=
  let attemptAt := calculateAttemptAtRaw s scheduledAt
  match reference with
  | none => attemptAt
  | some ref =>
    if normalizeDatetime attemptAt ≤ normalizeDatetime ref then ref + 60
    else attemptAt

/-- The filter of `_existing_future_pending`: pending tasks of the slot whose
occurrence is not in the past (`scheduled_date >= now`).  The `ORDER BY`
clause of the query only affects iteration order, which none of the uses
depend on, so the model keeps the database order. -/
def isFuturePending (s : BookingSlot) (now : Int) (t : BookingTask) : Bool :=
  t.slotId == s.id && t.status == TaskStatus.pending && decide (now ≤ t.scheduledDate)

/-- The filter of the `previously_processed_dates` query: non-pending tasks
of the slot whose occurrence is not in the past. -/
def isFutureProcessed (s : BookingSlot) (now : Int) (t : BookingTask) : Bool :=
  t.slotId == s.id && !(t.status == TaskStatus.pending) && decide (now ≤ t.scheduledDate)

/-- The result of the candidate-insertion loop of `sync_pending_tasks`:
the tasks inserted, and whether the loop condition
`len(existing) + added < count` was actually brought down to false (the
Python loop has no iteration cap, so the model runs on explicit fuel;
`finished = false` means the fuel ran out with insertions still owed). -/
structure SyncLoopResult where
  newTasks : List BookingTask
  finished : Bool
deriving DecidableEq, Repr

/-- The `while len(existing) + added < count` loop of `sync_pending_tasks`,
with `needed = count - len(existing) - added` counting down.  Each iteration
computes the next candidate occurrence, skips it when it is not in the
future or its normalised instant is already used, and otherwise inserts a
fresh pending task and marks the instant used. -/
def syncLoop (s : BookingSlot) (now : Int) :
    Nat → Int → Nat → List Int → SyncLoopResult
  | 0, _, needed, _ => { newTasks := [], finished := needed == 0 }
  | fuel + 1, offset, needed, usedDates =>
    if needed = 0 then { newTasks := [], finished := true }
    else
      let scheduledAt := calculateNextOccurrence s now offset
      let normalizedCandidate := normalizeDatetime scheduledAt
      if scheduledAt ≤ now ∨ normalizedCandidate ∈ usedDates then
        syncLoop s now fuel (offset + 1) needed usedDates
      else
        let task : BookingTask :=
          { slotId := s.id
            scheduledDate := scheduledAt
            attemptAt := some (calculateAttemptAt s scheduledAt (some now))
            status := TaskStatus.pending }
        let rest := syncLoop s now fuel (offset + 1) (needed - 1)
          (normalizedCandidate :: usedDates)
        { newTasks := task :: rest.newTasks, finished := rest.finished }

/-- The `reset_existing` bulk delete: drop the slot's pending tasks. -/
def resetIfRequested (s : BookingSlot) (reset : Bool) (db : List BookingTask) :
    List BookingTask :=
  if reset then
    db.filter (fun t => !(t.slotId == s.id && t.status == TaskStatus.pending))
  else db

/-- The per-task body of the `attempt_at` refresh loop: surviving future
pending tasks of the slot get their attempt instant recomputed against the
current slot settings; nothing else changes. -/
def refreshAttempt (s : BookingSlot) (now : Int) (t : BookingTask) : BookingTask :=
  if isFuturePending s now t then
    { t with attemptAt := some (calculateAttemptAt s t.scheduledDate (some now)) }
  else t

/-- The `existing_dates` set: normalised instants of the surviving future
pending tasks plus those of the future non-pending
(`previously_processed_dates`) tasks.  The Python set is modelled as a list
queried with `∈`. -/
def usedDatesOf (s : BookingSlot) (now : Int) (db1 : List BookingTask) : List Int :=
  (db1.filter (isFuturePending s now)).map (fun t => normalizeDatetime t.scheduledDate)
    ++ (db1.filter (isFutureProcessed s now)).map
        (fun t => normalizeDatetime t.scheduledDate)

/-- `sync_pending_tasks(db, slot, count, reset_existing)`.  The database is a
list of tasks.  Newly inserted tasks are appended after the
(attempt-instant-refreshed) surviving tasks, matching session add order. -/
def syncPendingTasks (fuel : Nat) (s : BookingSlot) (now : Int) (count : Nat)
    (resetExisting : Bool) (db : List BookingTask) : List BookingTask :=
  if ¬ s.isActive then db
  else
    let db1 := resetIfRequested s resetExisting db
    let existing := db1.filter (isFuturePending s now)
    let db2 := db1.map (refreshAttempt s now)
    let res := syncLoop s now fuel 0 (count - existing.length) (usedDatesOf s now db1)
    db2 ++ res.newTasks

/-- The schema bound on `day_of_week`: absent, or in `[0, 6]`. -/
def dayOfWeekOK (o : Option Int) : Bool :=
  match o with
  | none => true
  | some d => decide (0 ≤ d ∧ d ≤ 6)

/-- The schema bound on `day_of_month`: absent, or in `[1, 31]`. -/
def dayOfMonthOK (o : Option Int) : Bool :=
  match o with
  | none => true
  | some d => decide (1 ≤ d ∧ d ≤ 31)

/-- Well-formedness of a slot's stored fields: exactly what the schema
validation (`day_of_week ∈ [0,6]`, `day_of_month ∈ [1,31]`) and the "HH:MM"
format of the `time` column guarantee. -/
def SlotWF (s : BookingSlot) : Prop :=
  0 ≤ s.timeHour ∧ s.timeHour ≤ 23 ∧ 0 ≤ s.timeMinute ∧ s.timeMinute ≤ 59 ∧
    dayOfWeekOK s.dayOfWeek = true ∧ dayOfMonthOK s.dayOfMonth = true

/-- Concrete slot used to probe `_calculate_attempt_at`: offset strategy with
all offsets zero, UTC. -/
def slotC3 : BookingSlot :=
  { id := 1, frequency := Frequency.weekly, dayOfWeek := some 0, dayOfMonth := none
    timeHour := 0, timeMinute := 1, tzOffset := 0, isActive := true
    attemptStrategy := AttemptStrategy.offset, attemptOffsetDays := 0
    attemptOffsetHours := 0, attemptOffsetMinutes := 0
    releaseDaysBefore := 0, releaseTime := none }

/-- Weekly slot whose configured weekday/time coincide with the reference
instant's weekday at an already-passed time: 1970-01-01 is a Thursday
(caller weekday 4) and the slot time 00:00 is not after the reference
00:00:00. -/
def slotC4 : BookingSlot :=
  { id := 2, frequency := Frequency.weekly, dayOfWeek := some 4, dayOfMonth := none
    timeHour := 0, timeMinute := 0, tzOffset := 0, isActive := true
    attemptStrategy := AttemptStrategy.offset, attemptOffsetDays := 0
    attemptOffsetHours := 0, attemptOffsetMinutes := 0
    releaseDaysBefore := 0, releaseTime := none }

/-- Monthly slot with `day_of_month = 31`, local time 10:00, UTC. -/
def slotC5 : BookingSlot :=
  { id := 3, frequency := Frequency.monthly, dayOfWeek := none, dayOfMonth := some 31
    timeHour := 10, timeMinute := 0, tzOffset := 0, isActive := true
    attemptStrategy := AttemptStrategy.offset, attemptOffsetDays := 0
    attemptOffsetHours := 0, attemptOffsetMinutes := 0
    releaseDaysBefore := 0, releaseTime := none }

/-- No two pending tasks of one slot share an occurrence instant. -/
def PendingDistinct (db : List BookingTask) : Prop :=
  db.Pairwise (fun a b => a.slotId = b.slotId → a.status = TaskStatus.pending →
    b.status = TaskStatus.pending → a.scheduledDate ≠ b.scheduledDate)

/-- A well-formed active weekly slot used to instantiate the scheduler
theorems: Mondays 18:30, UTC+1. -/
def slotW : BookingSlot :=
  { id := 4, frequency := Frequency.weekly, dayOfWeek := some 1, dayOfMonth := none
    timeHour := 18, timeMinute := 30, tzOffset := 3600, isActive := true
    attemptStrategy := AttemptStrategy.offset, attemptOffsetDays := 0
    attemptOffsetHours := 1, attemptOffsetMinutes := 0
    releaseDaysBefore := 0, releaseTime := none }

/-- A failed task of `slotW` at a future instant. -/
def taskC1 : BookingTask :=
  { slotId := 4, scheduledDate := 604800, attemptAt := none
    status := TaskStatus.failed }

/-- A one-task database containing only `taskC1`. -/
def dbC1 : List BookingTask := [taskC1]

/- ------------------------------------------------------------------ -/
/- Provider ranking (integrations/better/utils.py and
   integrations/clubspark/utils.py).                                   -/
/- ------------------------------------------------------------------ -/

/-- `_index_rank` (identical in both providers' utils): `0` for an empty
candidate list, otherwise `candidates.index(value)` with the `ValueError`
branch returning `len(candidates)` — exactly `List.indexOf`. -/
def indexRank {α : Type} [BEq α] (value : α) (candidates : List α) : Nat :=
  if candidates.isEmpty then 0 else candidates.indexOf value

/-- Python `str.lower`, viewed on the character list (ASCII case mapping,
which is what court and time labels use). -/
def strLower (s : String) : List Char := s.data.map Char.toLower

def isPrefixChars : List Char → List Char → Bool
  | [], _ => true
  | _ :: _, [] => false
  | a :: as, b :: bs => a == b && isPrefixChars as bs

/-- Substring test on character lists: `needle` occurs contiguously in the
haystack. -/
def containsChars (needle : List Char) : List Char → Bool
  | [] => needle.isEmpty
  | c :: t => isPrefixChars needle (c :: t) || containsChars needle t

/-- Python `candidate.lower() in value.lower()`. -/
def lowerContains (value candidate : String) : Bool :=
  containsChars (strLower candidate) (strLower value)

/-- The `for index, candidate in enumerate(candidates)` loop body of
`_match_rank`: index of the first case-insensitive substring match. -/
def matchFirst (value : String) : List String → Option Nat
  | [] => none
  | candidate :: rest =>
      if lowerContains value candidate then some 0
      else (matchFirst value rest).map (fun i => i + 1)

/-- `better.utils._match_rank`: `0` for an empty list, the first matching
index, and `float("inf")` — modelled as `⊤ : WithTop Nat` — when a
non-empty list has no match. -/
def matchRank (value : String) (candidates : List String) : WithTop Nat :=
  if candidates.isEmpty then 0
  else
    match matchFirst value candidates with
    | some i => (i : WithTop Nat)
    | none => ⊤

/-- The fields of `better.models.Slot` read by `rank_slot`
(`slot.starts_at.format_24_hour` and `slot.location.name`). -/
structure BetterSlot where
  startsAt24 : String
  locationName : String
deriving DecidableEq, Repr

/-- `better.utils.rank_slot`: `time_rank * 100 + court_rank` over floats;
the only possible infinity is `court_rank`, so the result lives in
`WithTop Nat`. -/
def rank_slot (slot : BetterSlot) (preferredTimes preferredCourts : List String) :
    WithTop Nat :=
  (indexRank slot.startsAt24 preferredTimes : WithTop Nat) * 100
    + matchRank slot.locationName preferredCourts

/-- The ranking formula as the specification words it: plain `indexOf`
semantics (match position / list length on a non-empty miss / `0` on an
empty list) for the substring strategy as well. Defined for comparison
with `rank_slot`. -/
def matchRankSpec (value : String) (candidates : List String) : Nat :=
  if candidates.isEmpty then 0
  else
    match matchFirst value candidates with
    | some i => i
    | none => candidates.length

/-- The specification's version of `rank_slot` (always finite). -/
def rank_slotSpec (slot : BetterSlot) (preferredTimes preferredCourts : List String) :
    WithTop Nat :=
  ((indexRank slot.startsAt24 preferredTimes * 100
      + matchRankSpec slot.locationName preferredCourts : Nat) : WithTop Nat)

/-- `clubspark.models.ResourceSlot`, restricted to the fields the booking
flow reads. -/
structure ResourceSlot where
  Name : String
  Cost : Int
  ID : String
  SessionID : String
deriving DecidableEq, Repr

/-- `clubspark.models.TimeSlot`, restricted to the fields the booking flow
reads (the slot time in minutes and its resources). -/
structure TimeSlot where
  Time : Int
  Resources : List ResourceSlot
deriving DecidableEq, Repr

/-- `clubspark.utils.RankedSlot`. -/
structure CSRankedSlot where
  start_time : Int
  resource : ResourceSlot
deriving DecidableEq, Repr

/-- The combined rank `100 * time_rank + court_rank` that `rank_slots`
sorts by, recomputed from a ranked candidate's own fields. -/
def csRank (preferredTimes : List Int) (preferredCourts : List String)
    (r : CSRankedSlot) : Nat :=
  100 * indexRank r.start_time preferredTimes
    + indexRank r.resource.Name preferredCourts

/-- `clubspark.utils.rank_slots`: collect `(combined_rank, RankedSlot)`
pairs over every availability window × resource, sort by rank (Python
`list.sort` is stable, as is `List.mergeSort`), and drop the keys. -/
def rank_slots (slotOptions : List TimeSlot) (preferredTimes : List Int)
    (preferredCourts : List String) : List CSRankedSlot :=
  let ranked : List (Nat × CSRankedSlot) :=
    slotOptions.flatMap (fun timeSlot =>
      timeSlot.Resources.map (fun resource =>
        (100 * indexRank timeSlot.Time preferredTimes
            + indexRank resource.Name preferredCourts,
         ⟨timeSlot.Time, resource⟩)))
  (ranked.mergeSort (fun a b => decide (a.1 ≤ b.1))).map (fun item => item.2)

/- ------------------------------------------------------------------ -/
/- Provider booking attempt loops (services/providers/better.py,
   services/providers/clubspark.py).                                   -/
/- ------------------------------------------------------------------ -/

/-- Python falsy-`or` on strings: `v or dflt`. -/
def orDefaultStr (v dflt : String) : String := if v = "" then dflt else v

/-- `better.py MAX_SLOT_ATTEMPTS`. -/
def betterMaxSlotAttempts : Nat := 5

/-- `clubspark.py MAX_SLOT_ATTEMPTS`. -/
def clubsparkMaxSlotAttempts : Nat := 3

/-- The cart state `_attempt_better_booking` reads once `clear_cart` and
`add_slot_to_cart` succeed: the `itemHash`, the integer total (the
string/None coercions of `cart.total` are modelled as the already-parsed
value), and the applicable general credit (`none` when
`cart.general_credit()` is falsy; `int(max_applicable)` parse failures are
likewise modelled as the already-parsed value). -/
structure BetterCart where
  itemHash : String
  total : Int
  generalCredit : Option Int
deriving DecidableEq, Repr

/-- The response of `authorise_checkout`. -/
structure BetterAuth where
  transactionStatus : String
  transactionUuid : String
deriving DecidableEq, Repr

/-- Oracle for the Better client calls made while attempting one candidate
slot; `none` models a raised `BetterAPIError`.  The three checkout calls
(`prepare_checkout`, `validate_cvc`, `authorise_checkout`) share one `try`
block and are modelled as one combined outcome. -/
structure BetterAttemptWorld where
  cart : Option BetterCart
  applyCredits : Option Unit
  checkout : Option BetterAuth
  completeBooking : Option Unit
deriving DecidableEq, Repr

/-- `_attempt_better_booking`: `None` on any per-candidate error
(cart operation failure, failed or non-authorised checkout, failed
completion), otherwise the confirmation `transaction_id or cart.itemHash`. -/
def attemptBetterBooking (creditsAllowed : Bool) (w : BetterAttemptWorld) :
    Option String :=
  match w.cart with
  | none => none
  | some cart =>
    let creditsRequested : Int :=
      match cart.generalCredit with
      | some v => if creditsAllowed then v else 0
      | none => 0
    let creditsToUse : Int :=
      if creditsRequested = 0 then creditsRequested
      else
        match w.applyCredits with
        | some _ => creditsRequested
        | none => 0
    let needsCard := creditsToUse < cart.total
    let cardStep : Option String :=
      if needsCard then
        match w.checkout with
        | none => none
        | some auth =>
            if strLower auth.transactionStatus = "authorised".data then
              some auth.transactionUuid
            else none
      else some ""
    match cardStep with
    | none => none
    | some transactionId =>
      match w.completeBooking with
      | none => none
      | some _ => some (orDefaultStr transactionId cart.itemHash)

/-- The sort at the end of `_rank_slots_for_activities`:
`ranked.sort(key=lambda candidate: candidate.rank)` over the candidate
slots gathered for the task. -/
def betterRanked (preferredTimes preferredCourts : List String)
    (slots : List BetterSlot) : List BetterSlot :=
  slots.mergeSort (fun a b =>
    decide (rank_slot a preferredTimes preferredCourts ≤
      rank_slot b preferredTimes preferredCourts))

/-- The `for attempt, ranked in enumerate(ranked_slots[:MAX_SLOT_ATTEMPTS])`
loop of `_book_better`: return the first truthy confirmation — the guard
is Python's `if confirmation:`, so `None` and the empty string both fall
through to the next candidate. -/
def bookBetterAttempts (creditsAllowed : Bool)
    (oracle : BetterSlot → BetterAttemptWorld) :
    List BetterSlot → Option String
  | [] => none
  | slot :: rest =>
      match attemptBetterBooking creditsAllowed (oracle slot) with
      | some confirmation =>
          if confirmation = "" then bookBetterAttempts creditsAllowed oracle rest
          else some confirmation
      | none => bookBetterAttempts creditsAllowed oracle rest

/-- `_book_better` from the point where the ranked candidate list exists:
rank, then attempt the top `MAX_SLOT_ATTEMPTS`; `none` models the final
failure `BookingResult`. -/
def bookBetter (creditsAllowed : Bool)
    (preferredTimes preferredCourts : List String)
    (slots : List BetterSlot) (oracle : BetterSlot → BetterAttemptWorld) :
    Option String :=
  bookBetterAttempts creditsAllowed oracle
    ((betterRanked preferredTimes preferredCourts slots).take
      betterMaxSlotAttempts)

/-- The response of `create_payment` (only the `ID` is read). -/
structure CSPayment where
  ID : String
deriving DecidableEq, Repr

/-- The response of `request_session`. -/
structure CSSession where
  Result : Int
  TransactionID : String
deriving DecidableEq, Repr

/-- Oracle for the Clubspark client calls made while attempting one ranked
candidate; `none` models a raised `ClubsparkAPIError`. -/
structure CSAttemptWorld where
  createPayment : Option CSPayment
  requestSession : Option CSSession
deriving DecidableEq, Repr

/-- One iteration of the `_book_clubspark` attempt loop: each `continue`
branch (payment error, falsy `payment.ID`, session error, negative
`session.Result`) is `none`; success returns
`session.TransactionID or payment.ID`. -/
def attemptClubsparkBooking (w : CSAttemptWorld) : Option String :=
  match w.createPayment with
  | none => none
  | some payment =>
      if payment.ID = "" then none
      else
        match w.requestSession with
        | none => none
        | some session =>
            if session.Result < 0 then none
            else some (orDefaultStr session.TransactionID payment.ID)

/-- The `for attempt, ranked in enumerate(ranked_slots[:MAX_SLOT_ATTEMPTS])`
loop of `_book_clubspark`. -/
def bookClubsparkAttempts (oracle : CSRankedSlot → CSAttemptWorld) :
    List CSRankedSlot → Option String
  | [] => none
  | ranked :: rest =>
      match attemptClubsparkBooking (oracle ranked) with
      | some confirmation => some confirmation
      | none => bookClubsparkAttempts oracle rest

/-- `_book_clubspark` from the point where availability exists: rank the
windows, then attempt the top `MAX_SLOT_ATTEMPTS`. -/
def bookClubspark (slotOptions : List TimeSlot) (preferredTimes : List Int)
    (preferredCourts : List String)
    (oracle : CSRankedSlot → CSAttemptWorld) : Option String :=
  bookClubsparkAttempts oracle
    ((rank_slots slotOptions preferredTimes preferredCourts).take
      clubsparkMaxSlotAttempts)

/-- Scenario availability: three windows at 10:00, 11:00 and 12:00 local
minutes, one resource each. -/
def csScenarioSlots : List TimeSlot :=
  [⟨600, [⟨"Court 1", 1000, "r1", "s1"⟩]⟩,
   ⟨660, [⟨"Court 1", 1000, "r2", "s2"⟩]⟩,
   ⟨720, [⟨"Court 1", 1000, "r3", "s3"⟩]⟩]

/-- Scenario oracle: the first two candidates fail with communication
errors (`create_payment` raises), the third books successfully with
transaction id `TX3`. -/
def csScenarioOracle (r : CSRankedSlot) : CSAttemptWorld :=
  if r.resource.ID = "r3" then ⟨some ⟨"P3"⟩, some ⟨0, "TX3"⟩⟩
  else ⟨none, none⟩

/-- Scenario candidate slots for Better. -/
def betterScenarioSlots : List BetterSlot :=
  [⟨"10:00", "Court A"⟩, ⟨"11:00", "Court B"⟩, ⟨"12:00", "Court C"⟩]

/-- Scenario oracle for Better: the first two candidates fail with
communication errors (the cart operations raise), the third completes with
a zero-cost cart whose hash is `HASH3`. -/
def betterScenarioOracle (s : BetterSlot) : BetterAttemptWorld :=
  if s.startsAt24 = "12:00" then ⟨some ⟨"HASH3", 0, none⟩, some (), none, some ()⟩
  else ⟨none, none, none, none⟩

/- ------------------------------------------------------------------ -/
/- Booking engine registry and executor (services/booking_engine.py,
   services/executor.py).                                              -/
/- ------------------------------------------------------------------ -/

/-- `booking_engine.BookingResult`, restricted to the fields the executor
reads. -/
structure BookingResultM where
  success : Bool
  message : Option String
  confirmationCode : Option String
deriving DecidableEq, Repr

/-- Python falsy-`or` on `Optional[str]`: `v or dflt`. -/
def orDefaultOptStr (v : Option String) (dflt : String) : String :=
  match v with
  | none => dflt
  | some s => if s = "" then dflt else s

/-- `_lookup_handler`: `_provider_registry` is an association list whose
keys `register_provider_handler` lowercased; lookup lowercases the
provider type and raises `BookingProviderNotRegisteredError` — the
`Except.error`, carrying the provider type — when no handler is
registered.  A handler is modelled by the `BookingResult` it returns for
this invocation's context. -/
def lookupHandler (registry : List (List Char × BookingResultM))
    (providerType : String) : Except String BookingResultM :=
  match registry.find? (fun kv => kv.1 == strLower providerType) with
  | some kv => Except.ok kv.2
  | none => Except.error providerType

/-- `run_booking`: look up the handler for the context's provider type and
run it (running is applying the modelled result). -/
def runBooking (registry : List (List Char × BookingResultM))
    (providerType : String) : Except String BookingResultM :=
  lookupHandler registry providerType

/-- The executor's view of a task: the fields `execute_booking_task`
reads and writes. -/
structure ExecTask where
  status : TaskStatus
  errorMessage : Option String
  attemptedAt : Option Int
deriving DecidableEq, Repr

/-- The state one `execute_booking_task` call runs against: whether the
refetched task still has its slot / provider / owner relationships, the
slot's provider type, and the handler registry. -/
structure ExecWorld where
  slotExists : Bool
  providerExists : Bool
  ownerExists : Bool
  providerType : String
  registry : List (List Char × BookingResultM)
deriving DecidableEq, Repr

/-- `execute_booking_task`: the raised `BookingExecutionError` message
(`Except.error`) or success, paired with the task state after the call.
Every raise — missing slot/provider/owner, unregistered provider type
(wrapped `BookingProviderNotRegisteredError`), or a handler result with
`success=False` — happens before any task mutation; only the success path
mutates and commits. -/
def executeBookingTask (w : ExecWorld) (now : Int) (t : ExecTask) :
    Except String Unit × ExecTask :=
  if w.slotExists = false then
    (Except.error "Booking slot no longer exists", t)
  else if w.providerExists = false then
    (Except.error "Provider no longer exists for booking slot", t)
  else if w.ownerExists = false then
    (Except.error "Slot owner no longer exists", t)
  else
    match runBooking w.registry w.providerType with
    | Except.error e => (Except.error e, t)
    | Except.ok result =>
        if result.success = false then
          (Except.error (orDefaultOptStr result.message
            "Booking provider failed"), t)
        else
          (Except.ok (),
           { status := TaskStatus.success,
             errorMessage := none,
             attemptedAt := match t.attemptedAt with
                            | none => some now
                            | some a => some a })

/-- A concrete world for the executor witness: everything present, the
`better` handler registered and succeeding. -/
def execW8 : ExecWorld :=
  ⟨true, true, true, "Better", [(strLower "better", ⟨true, none, some "CONF-1"⟩)]⟩

/-- A concrete processing task with no prior attempt timestamp. -/
def execT8 : ExecTask := ⟨TaskStatus.processing, some "previous failure", none⟩

/- ------------------------------------------------------------------ -/
/- Booking task endpoints (routers/booking_tasks.py, crud.py).         -/
/- ------------------------------------------------------------------ -/

/-- The router's view of a task: the columns the task endpoints read and
write. -/
structure RTask where
  status : TaskStatus
  scheduledDate : Int
  attemptAt : Option Int
  attemptedAt : Option Int
  errorMessage : Option String
deriving DecidableEq, Repr

/-- `schemas.BookingTaskUpdate` under `model_dump(exclude_unset=True)`:
the outer `Option` is "was the field provided"; explicitly provided
`null`s for the nullable columns are folded into the inner value. -/
structure BookingTaskUpdate where
  status : Option TaskStatus
  errorMessage : Option (Option String)
  scheduledDate : Option Int
  attemptAt : Option (Option Int)
deriving DecidableEq, Repr

/-- `crud.update_booking_task`: `setattr` for every provided field, with
no validation of any kind. -/
def updateBookingTaskCrud (t : RTask) (u : BookingTaskUpdate) : RTask :=
  { status := u.status.getD t.status,
    scheduledDate := u.scheduledDate.getD t.scheduledDate,
    attemptAt := u.attemptAt.getD t.attemptAt,
    attemptedAt := t.attemptedAt,
    errorMessage := u.errorMessage.getD t.errorMessage }

/-- `PATCH /booking-tasks/id`: rejected only when a non-pending task
would be set to `pending`; everything else goes straight to the crud
update.  `Except.error` models the `HTTPException`. -/
def updateEndpoint (t : RTask) (u : BookingTaskUpdate) : Except String RTask :=
  if t.status ≠ TaskStatus.pending ∧ u.status = some TaskStatus.pending then
    Except.error "Cannot revert task to pending"
  else Except.ok (updateBookingTaskCrud t u)

/-- `POST /booking-tasks/id/cancel`: only pending tasks, via the crud
update with `status=cancelled` (the follow-up `sync_pending_tasks` call
acts on the rest of the database, not this task). -/
def cancelEndpoint (t : RTask) : Except String RTask :=
  if t.status ≠ TaskStatus.pending then
    Except.error "Only pending tasks can be cancelled"
  else Except.ok (updateBookingTaskCrud t ⟨some TaskStatus.cancelled, none, none, none⟩)

/-- `POST /booking-tasks/id/execute`: only pending tasks; the task is
stamped `processing` with `attempted_at = now` and committed, then the
executor outcome decides the final committed state — `success` with the
error message cleared, or `failed` carrying the raised message
(`handlerOk` and `failMsg` summarise `execute_booking_task`'s outcome;
the 502 response body on failure is not modelled). -/
def executeEndpoint (now : Int) (handlerOk : Bool) (failMsg : String)
    (t : RTask) : Except String RTask :=
  if t.status ≠ TaskStatus.pending then
    Except.error "Only pending tasks can be executed"
  else
    let t1 : RTask :=
      { t with
        status := TaskStatus.processing
        attemptedAt := some now }
    if handlerOk then
      Except.ok { t1 with status := TaskStatus.success, errorMessage := none }
    else
      Except.ok { t1 with status := TaskStatus.failed, errorMessage := some failMsg }

/-- `POST /booking-tasks/id/reactivate`: only cancelled tasks whose
occurrence is not in the past (`scheduled < now` is rejected). -/
def reactivateEndpoint (now : Int) (t : RTask) : Except String RTask :=
  if t.status ≠ TaskStatus.cancelled then
    Except.error "Only cancelled tasks can be reactivated"
  else if t.scheduledDate < now then
    Except.error "Cannot reactivate a task scheduled in the past"
  else Except.ok { t with status := TaskStatus.pending, errorMessage := none }

/-- `DELETE /booking-tasks/id`: only cancelled, failed or successful
tasks. -/
def deleteEndpoint (t : RTask) : Except String Unit :=
  if t.status = TaskStatus.cancelled ∨ t.status = TaskStatus.failed ∨
      t.status = TaskStatus.success then Except.ok ()
  else Except.error "Only cancelled, failed, or completed tasks can be deleted"

/- ------------------------------------------------------------------ -/
/- Theorems.                                                           -/
/- ------------------------------------------------------------------ -/

theorem daysToCivil_epoch : daysToCivil 0 = (1970, 1, 1) := by decide

theorem daysToCivil_sample : daysToCivil 19873 = (2024, 5, 30) := by decide

theorem daysToCivil_neg : daysToCivil (-1) = (1969, 12, 31) := by decide

theorem daysToCivil_leap : daysToCivil 11016 = (2000, 2, 29) := by decide

/-- The year-of-era of `doe ∈ [0, 146096]` is in `[0, 399]`, starts no later
than `doe`, ends within 366 days, and (except for the last year of the era)
`doe` lies strictly before the next year's start. -/
theorem yoeOfDoe_spec (doe : Int) (h0 : 0 ≤ doe) (h1 : doe ≤ 146096) :
    0 ≤ yoeOfDoe doe ∧ yoeOfDoe doe ≤ 399 ∧
      yearStartI (yoeOfDoe doe) ≤ doe ∧
      doe - yearStartI (yoeOfDoe doe) ≤ 365 ∧
      (yoeOfDoe doe ≤ 398 → doe < yearStartI (yoeOfDoe doe + 1)) := by
  simp only [yoeOfDoe, yearStartI]
  split_ifs <;> omega

/-- Day-of-year bounds for `doe ∈ [0, 146096]`. -/
theorem doyOfDoe_spec (doe : Int) (h0 : 0 ≤ doe) (h1 : doe ≤ 146096) :
    0 ≤ doyOfDoe doe ∧ doyOfDoe doe ≤ 365 := by
  have h := yoeOfDoe_spec doe h0 h1
  unfold doyOfDoe
  omega

/-- A 366th day of a shifted year occurs only when the following calendar
year-of-era is a leap year (the era-closing year 400 included). -/
theorem doyOfDoe_leap (doe : Int) (h0 : 0 ≤ doe) (h1 : doe ≤ 146096)
    (h365 : doyOfDoe doe = 365) :
    (yoeOfDoe doe + 1) % 4 = 0 ∧
      ((yoeOfDoe doe + 1) % 100 ≠ 0 ∨ yoeOfDoe doe + 1 = 400) := by
  obtain ⟨ha0, ha399, hys, hle, himp⟩ := yoeOfDoe_spec doe h0 h1
  unfold doyOfDoe at h365
  by_cases hy : yoeOfDoe doe ≤ 398
  · have hlt := himp hy
    have hstep : yearStartI (yoeOfDoe doe) + 366 ≤ yearStartI (yoeOfDoe doe + 1) := by
      omega
    refine ⟨?_, Or.inl ?_⟩
    · unfold yearStartI at hstep
      omega
    · unfold yearStartI at hstep
      omega
  · exact ⟨by omega, Or.inr (by omega)⟩

/-- Shifted-month decomposition of a day-of-year `doy ∈ [0, 365]`: the month
index is in `[0, 11]`, the month starts no later than `doy`, the day-of-month
is in range for the shifted-month length, and a day 29 of shifted month 11
(February) forces `doy = 365`. -/
theorem mpOfDoy_spec (doy mp d : Int) (h0 : 0 ≤ doy) (h1 : doy ≤ 365)
    (hmp : mpOfDoy doy = mp) (hd : doy - (153 * mp + 2) / 5 + 1 = d) :
    0 ≤ mp ∧ mp ≤ 11 ∧ 1 ≤ d ∧
      d ≤ (if mp = 11 then 29 else if mp = 1 ∨ mp = 3 ∨ mp = 6 ∨ mp = 8 then 30 else 31) ∧
      (mp = 11 → d = 29 → doy = 365) ∧
      (153 * mp + 2) / 5 + d - 1 = doy := by
  simp only [mpOfDoy] at hmp
  split_ifs <;> omega

/-- Specification of the era-local conversion: on `doe ∈ [0, 146096]` it
produces a year-of-era in `[0, 399]`, a valid month and day, and inverts
the era-local part of `civilToDays`. -/
theorem civilFromDoe_spec (doe yoe m d : Int) (h0 : 0 ≤ doe) (h1 : doe ≤ 146096)
    (heq : civilFromDoe doe = (yoe, m, d)) :
    0 ≤ yoe ∧ yoe ≤ 399 ∧ 1 ≤ m ∧ m ≤ 12 ∧ 1 ≤ d ∧
      d ≤ (if m = 2 then
            (if ((yoe + 1) % 4 = 0 ∧ (yoe + 1) % 100 ≠ 0) ∨ yoe + 1 = 400
              then 29 else 28)
           else if m = 4 ∨ m = 6 ∨ m = 9 ∨ m = 11 then 30 else 31) ∧
      yearStartI yoe + ((153 * ((m + 9) % 12) + 2) / 5 + d - 1) = doe ∧
      (m ≤ 2 ↔ 10 ≤ (m + 9) % 12) := by
  have hy := yoeOfDoe_spec doe h0 h1
  have hdoy := doyOfDoe_spec doe h0 h1
  have hmp := mpOfDoy_spec (doyOfDoe doe) (mpOfDoy (doyOfDoe doe))
    (doyOfDoe doe - (153 * mpOfDoy (doyOfDoe doe) + 2) / 5 + 1) hdoy.1 hdoy.2 rfl rfl
  have hleap := doyOfDoe_leap doe h0 h1
  obtain ⟨hmp0, hmp11, hd1, hdub, h29, hinv⟩ := hmp
  simp only [civilFromDoe, Prod.mk.injEq] at heq
  obtain ⟨hyoe, hm, hd⟩ := heq
  have hdoe : doe = yearStartI (yoeOfDoe doe) + doyOfDoe doe := by
    unfold doyOfDoe
    omega
  rw [← hyoe]
  have hmmp : (m + 9) % 12 = mpOfDoy (doyOfDoe doe) := by
    rw [← hm]
    split_ifs <;> omega
  have hdval : d = doyOfDoe doe - (153 * mpOfDoy (doyOfDoe doe) + 2) / 5 + 1 := hd.symm
  refine ⟨hy.1, hy.2.1, ?_, ?_, by omega, ?_, ?_, ?_⟩
  · rw [← hm]
    split_ifs <;> omega
  · rw [← hm]
    split_ifs <;> omega
  · split_ifs with h2 hlp h46
    · -- February, following year leap in the era: day at most 29
      split_ifs at hdub <;> omega
    · -- February, not leap: a 29th would force day-of-year 365, hence leap
      have hm11 : mpOfDoy (doyOfDoe doe) = 11 := by
        rw [← hm] at h2
        split_ifs at h2 <;> omega
      by_contra hgt
      have hd29 : d = 29 := by
        rw [hm11] at hdub
        simp only [if_pos rfl] at hdub
        omega
      obtain ⟨ha4, hb | hc⟩ := hleap (h29 hm11 (by omega))
      · exact hlp (Or.inl ⟨ha4, hb⟩)
      · exact hlp (Or.inr hc)
    · -- 30-day months
      have h1368 : mpOfDoy (doyOfDoe doe) = 1 ∨ mpOfDoy (doyOfDoe doe) = 3 ∨
          mpOfDoy (doyOfDoe doe) = 6 ∨ mpOfDoy (doyOfDoe doe) = 8 := by
        rw [← hm] at h46
        split_ifs at h46 <;> omega
      split_ifs at hdub <;> omega
    · -- 31-day months
      split_ifs at hdub <;> omega
  · rw [hmmp]
    omega
  · rw [hmmp, ← hm]
    split_ifs <;> omega

/-- `civilToDays` inverts `daysToCivil`: the civil-date model is a bijection
onto day numbers. -/
theorem civilToDays_daysToCivil (n : Int) :
    civilToDays (daysToCivil n).1 (daysToCivil n).2.1 (daysToCivil n).2.2 = n := by
  have hdoe0 : 0 ≤ (n + 719468) - ((n + 719468) / 146097) * 146097 := by omega
  have hdoe1 : (n + 719468) - ((n + 719468) / 146097) * 146097 ≤ 146096 := by omega
  rcases hcv : civilFromDoe ((n + 719468) - ((n + 719468) / 146097) * 146097)
    with ⟨yoe, m, d⟩
  obtain ⟨hy0, hy399, hm1, hm12, hd1, hdub, hinv, hiff⟩ :=
    civilFromDoe_spec _ _ _ _ hdoe0 hdoe1 hcv
  simp only [daysToCivil, hcv, civilToDays]
  unfold yearStartI at hinv ⊢
  split_ifs <;> omega

/-- Arithmetic characterisation of `isLeap`. -/
theorem isLeap_iff (y : Int) :
    isLeap y = true ↔ ((y % 4 = 0 ∧ y % 100 ≠ 0) ∨ y % 400 = 0) := by
  simp [isLeap]

/-- `monthLen` with the leap test spelled out arithmetically. -/
theorem monthLen_eq (y m : Int) :
    monthLen y m =
      if m = 2 then (if (y % 4 = 0 ∧ y % 100 ≠ 0) ∨ y % 400 = 0 then 29 else 28)
      else if m = 4 ∨ m = 6 ∨ m = 9 ∨ m = 11 then 30 else 31 := by
  cases hIL : isLeap y with
  | false =>
    have hp : ¬((y % 4 = 0 ∧ y % 100 ≠ 0) ∨ y % 400 = 0) := by
      rw [← isLeap_iff, hIL]
      simp
    simp only [monthLen, hIL]
    split_ifs <;> first | rfl | tauto
  | true =>
    have hp : (y % 4 = 0 ∧ y % 100 ≠ 0) ∨ y % 400 = 0 := by
      rw [← isLeap_iff]
      exact hIL
    simp only [monthLen, hIL]
    split_ifs <;> first | rfl | tauto

/-- Month lengths lie in `[28, 31]`. -/
theorem monthLen_bounds (y m : Int) : 28 ≤ monthLen y m ∧ monthLen y m ≤ 31 := by
  rw [monthLen_eq]
  split_ifs <;> omega

/-- `daysToCivil` produces a valid civil date: month in `[1, 12]` and day in
`[1, monthLen]`. -/
theorem daysToCivil_valid (n : Int) :
    1 ≤ (daysToCivil n).2.1 ∧ (daysToCivil n).2.1 ≤ 12 ∧
      1 ≤ (daysToCivil n).2.2 ∧
      (daysToCivil n).2.2 ≤ monthLen (daysToCivil n).1 (daysToCivil n).2.1 := by
  have hdoe0 : 0 ≤ (n + 719468) - ((n + 719468) / 146097) * 146097 := by omega
  have hdoe1 : (n + 719468) - ((n + 719468) / 146097) * 146097 ≤ 146096 := by omega
  rcases hcv : civilFromDoe ((n + 719468) - ((n + 719468) / 146097) * 146097)
    with ⟨yoe, m, d⟩
  obtain ⟨hy0, hy399, hm1, hm12, hd1, hdub, hinv, hiff⟩ :=
    civilFromDoe_spec _ _ _ _ hdoe0 hdoe1 hcv
  simp only [daysToCivil, hcv]
  rw [monthLen_eq]
  split_ifs at hdub ⊢ <;> omega

set_option maxHeartbeats 1600000 in
/-- Advancing a month index by one advances the month start by exactly that
month's length. -/
theorem monthStart_succ (idx : Int) :
    monthStart (idx + 1) = monthStart idx + monthLen (idx / 12) (idx % 12 + 1) := by
  obtain ⟨y, r, hr0, hr11, rfl⟩ :
      ∃ y r, 0 ≤ r ∧ r ≤ 11 ∧ idx = 12 * y + r :=
    ⟨idx / 12, idx % 12, by omega, by omega, by omega⟩
  rw [show (12 * y + r) / 12 = y by omega, show (12 * y + r) % 12 + 1 = r + 1 by omega]
  rw [monthLen_eq]
  simp only [monthStart, monthOfIdx, civilToDays, yearStartI]
  rw [show (12 * y + r) / 12 = y by omega, show (12 * y + r) % 12 = r by omega]
  by_cases hr1 : r = 1
  · subst hr1
    rw [show (12 * y + 1 + 1) / 12 = y by omega, show (12 * y + 1 + 1) % 12 = 2 by omega]
    split_ifs <;> omega
  by_cases hrB : r = 11
  · subst hrB
    rw [show (12 * y + 11 + 1) / 12 = y + 1 by omega,
      show (12 * y + 11 + 1) % 12 = 0 by omega]
    split_ifs <;> omega
  · rw [show (12 * y + r + 1) / 12 = y by omega, show (12 * y + r + 1) % 12 = r + 1 by omega]
    interval_cases r <;> split_ifs <;> omega

/-- Month starts grow by at least 28 days per month. -/
theorem monthStart_add (idx : Int) (k : Nat) :
    monthStart idx + 28 * (k : Int) ≤ monthStart (idx + (k : Int)) := by
  induction k with
  | zero => simp
  | succ n ih =>
    have hs := monthStart_succ (idx + (n : Int))
    have hb := monthLen_bounds ((idx + (n : Int)) / 12) ((idx + (n : Int)) % 12 + 1)
    push_cast
    push_cast at ih
    rw [show idx + ((n : Int) + 1) = idx + (n : Int) + 1 by ring]
    omega

/-- `civilToDays` is translation-equivariant in the day argument. -/
theorem civilToDays_day_shift (y m d d2 : Int) :
    civilToDays y m d2 = civilToDays y m d + (d2 - d) := by
  simp only [civilToDays]
  split_ifs <;> omega

/-- The month start of the index `12 * y + m - 1` is day 1 of `(y, m)`. -/
theorem monthStart_eq (y m : Int) (h1 : 1 ≤ m) (h2 : m ≤ 12) :
    monthStart (12 * y + m - 1) = civilToDays y m 1 := by
  simp only [monthStart, monthOfIdx]
  rw [show (12 * y + m - 1) / 12 = y by omega,
    show (12 * y + m - 1) % 12 + 1 = m by omega]

/-- Jumping at least one month ahead clears the end of the current month. -/
theorem monthStart_next (idx : Int) (k : Nat) (hk : 1 ≤ k) :
    monthStart idx + monthLen (idx / 12) (idx % 12 + 1) ≤ monthStart (idx + (k : Int)) := by
  have hs := monthStart_succ idx
  have ha := monthStart_add (idx + 1) (k - 1)
  have hcast : ((k - 1 : Nat) : Int) = (k : Int) - 1 := by
    omega
  rw [hcast] at ha
  have : idx + 1 + ((k : Int) - 1) = idx + (k : Int) := by ring
  rw [this] at ha
  omega

/-- C3 counterexample: with reference 1970-01-01T00:00:50 and occurrence
00:01:00, the raw candidate (00:01:00) is not strictly after
reference + 1 minute (00:01:50), yet the result is neither clamped to
reference + 1 minute nor at least reference + 1 minute. -/
theorem C3_counterexample :
    calculateAttemptAtRaw slotC3 60 ≤ 50 + 60 ∧
      ¬ (50 + 60 ≤ calculateAttemptAt slotC3 60 (some 50)) ∧
      calculateAttemptAt slotC3 60 (some 50) ≠ 50 + 60 := by decide

/-- C3 (amended): the attempt instant is always strictly after the reference;
when the raw candidate is not strictly after the reference it is clamped to
exactly reference + 1 minute, otherwise it is returned unchanged; and when
both reference and raw candidate are whole-minute instants the attempt
instant is at least reference + 1 minute. -/
theorem C3_attempt_after_reference (s : BookingSlot) (sched ref : Int) :
    ref < calculateAttemptAt s sched (some ref) ∧
      (calculateAttemptAtRaw s sched ≤ ref →
        calculateAttemptAt s sched (some ref) = ref + 60) ∧
      (ref < calculateAttemptAtRaw s sched →
        calculateAttemptAt s sched (some ref) = calculateAttemptAtRaw s sched) ∧
      (ref % 60 = 0 → calculateAttemptAtRaw s sched % 60 = 0 →
        ref + 60 ≤ calculateAttemptAt s sched (some ref)) := by
  simp only [calculateAttemptAt, normalizeDatetime]
  split_ifs <;> omega

theorem slotIncrement_weekly (s : BookingSlot) (h : s.frequency = Frequency.weekly) :
    slotIncrement s = 7 := by
  simp [slotIncrement, h]

theorem slotIncrement_fortnightly (s : BookingSlot)
    (h : s.frequency = Frequency.fortnightly) : slotIncrement s = 14 := by
  simp [slotIncrement, h]

/-- The weekly/fortnightly branch of `_calculate_next_occurrence`, with the
lets inlined. -/
theorem calculateNextOccurrence_weekly_eq (s : BookingSlot)
    (hf : s.frequency = Frequency.weekly ∨ s.frequency = Frequency.fortnightly)
    (base offset : Int) :
    calculateNextOccurrence s base offset =
      (if dayFloor (minuteFloor (base + s.tzOffset)) + slotTimeSec s +
            ((orDefaultInt (slotDayOfWeek s) 0 - pyWeekday (base + s.tzOffset) + 7) % 7 +
              offset * slotIncrement s) * 86400 ≤ base + s.tzOffset
        then dayFloor (minuteFloor (base + s.tzOffset)) + slotTimeSec s +
            ((orDefaultInt (slotDayOfWeek s) 0 - pyWeekday (base + s.tzOffset) + 7) % 7 +
              offset * slotIncrement s) * 86400 + slotIncrement s * 86400
        else dayFloor (minuteFloor (base + s.tzOffset)) + slotTimeSec s +
            ((orDefaultInt (slotDayOfWeek s) 0 - pyWeekday (base + s.tzOffset) + 7) % 7 +
              offset * slotIncrement s) * 86400) - s.tzOffset := by
  rcases hf with hfreq | hfreq <;> simp only [calculateNextOccurrence, hfreq, resultTimeOf, baseLocalOf]

/-- C4 (amended). -/
theorem C4_weekly_occurrence_grid (s : BookingSlot) (base d n : Int)
    (hWF : SlotWF s)
    (hf : s.frequency = Frequency.weekly ∨ s.frequency = Frequency.fortnightly)
    (hd : s.dayOfWeek = some d) (hn : 0 ≤ n) :
    pyWeekday (calculateNextOccurrence s base n + s.tzOffset) = (d + 6) % 7 ∧
      secOfDay (calculateNextOccurrence s base n + s.tzOffset) = slotTimeSec s ∧
      base < calculateNextOccurrence s base n ∧
      (1 ≤ n → calculateNextOccurrence s base (n + 1) =
        calculateNextOccurrence s base n + slotIncrement s * 86400) ∧
      (calculateNextOccurrence s base 1 = calculateNextOccurrence s base 0 ∨
        calculateNextOccurrence s base 1 = calculateNextOccurrence s base 0 +
          slotIncrement s * 86400) := by
  obtain ⟨hh0, hh23, hm0, hm59, hdow, _⟩ := hWF
  rw [hd] at hdow
  simp only [dayOfWeekOK, decide_eq_true_eq] at hdow
  obtain ⟨hd0, hd6⟩ := hdow
  have hsd : orDefaultInt (slotDayOfWeek s) 0 = (d + 6) % 7 := by
    simp only [slotDayOfWeek, hd, orDefaultInt]
    split_ifs <;> omega
  have hinc : slotIncrement s = 7 ∨ slotIncrement s = 14 := by
    rcases hf with h | h
    · exact Or.inl (slotIncrement_weekly s h)
    · exact Or.inr (slotIncrement_fortnightly s h)
  rcases hinc with hi | hi <;>
    refine ⟨?_, ?_, ?_, fun hn1 => ?_, ?_⟩ <;>
    (simp only [calculateNextOccurrence_weekly_eq s hf, hsd, hi, pyWeekday,
      secOfDay, dayFloor, minuteFloor, dayNumber, slotTimeSec]
     split_ifs <;> omega)

/-- C4 counterexample: the offset-0 and offset-1 occurrences coincide, so the
occurrence sequence is not strictly increasing by exactly 7 days over all
`n = 0, 1, 2, …`. -/
theorem C4_counterexample :
    calculateNextOccurrence slotC4 0 1 ≠ calculateNextOccurrence slotC4 0 0 + 7 * 86400 ∧
      calculateNextOccurrence slotC4 0 1 = calculateNextOccurrence slotC4 0 0 := by
  decide

/-- The monthly branch of `_calculate_next_occurrence`, with the lets
inlined. -/
theorem calculateNextOccurrence_monthly_eq (s : BookingSlot)
    (hf : s.frequency = Frequency.monthly) (base offset : Int) :
    calculateNextOccurrence s base offset =
      civilToDays (monthlyTotalMonthsOf s base offset / 12)
          (monthlyTotalMonthsOf s base offset % 12 + 1)
          (min (desiredDayOf s)
            (monthLen (monthlyTotalMonthsOf s base offset / 12)
              (monthlyTotalMonthsOf s base offset % 12 + 1))) * 86400 +
        secOfDay (resultTimeOf s base) - s.tzOffset := by
  simp only [calculateNextOccurrence, hf]

/-- Under well-formedness the slot's time-of-day is carried verbatim. -/
theorem secOfDay_resultTimeOf (s : BookingSlot) (base : Int) (hWF : SlotWF s) :
    secOfDay (resultTimeOf s base) = slotTimeSec s := by
  obtain ⟨hh0, hh23, hm0, hm59, _, _⟩ := hWF
  simp only [resultTimeOf, secOfDay, dayFloor, minuteFloor, slotTimeSec,
    baseLocalOf]
  omega

/-- C5: the `n`-th monthly occurrence lands in the month whose index
(`12 · year + month − 1`) is the base month's index advanced by exactly
`n` plus the fixed carry (`1` when the in-base-month candidate is not
strictly after `base_local`), on day `min(desired_day, monthrange(target))`,
at the slot's local time-of-day: the clamp resolves day-of-month 31 in a
30-day month to day 30 of that same month, and successive offsets each
advance exactly one month. -/
theorem C5_monthly_no_skip (s : BookingSlot) (base n : Int) (hWF : SlotWF s)
    (hf : s.frequency = Frequency.monthly) :
    ∃ y m : Int,
      12 * y + (m - 1) = monthlyTotalMonthsOf s base n ∧
      monthlyTotalMonthsOf s base n = monthlyTotalMonthsOf s base 0 + n ∧
      1 ≤ m ∧ m ≤ 12 ∧
      calculateNextOccurrence s base n =
        civilToDays y m (min (orDefaultInt s.dayOfMonth 1) (monthLen y m)) * 86400 +
          slotTimeSec s - s.tzOffset := by
  refine ⟨monthlyTotalMonthsOf s base n / 12, monthlyTotalMonthsOf s base n % 12 + 1,
    by omega, ?_, by omega, by omega, ?_⟩
  · simp only [monthlyTotalMonthsOf]
    split_ifs <;> omega
  · rw [calculateNextOccurrence_monthly_eq s hf base n,
      secOfDay_resultTimeOf s base hWF]
    rfl

/-- Witness for C5: from reference 2024-04-10T12:00Z (April has 30 days), the
offset-0 occurrence of a day-31 monthly slot is 2024-04-30T10:00Z — day 30 of
that same April — and instantiating the theorem at this input discharges its
hypotheses. -/
theorem C5_monthly_no_skip_witness :
    SlotWF slotC5 ∧
      calculateNextOccurrence slotC5 1712750400 0 = 1714471200 ∧
      1714471200 = civilToDays 2024 4 30 * 86400 + 36000 ∧
      (∃ y m : Int,
        12 * y + (m - 1) = monthlyTotalMonthsOf slotC5 1712750400 0 ∧
        monthlyTotalMonthsOf slotC5 1712750400 0 =
          monthlyTotalMonthsOf slotC5 1712750400 0 + 0 ∧
        1 ≤ m ∧ m ≤ 12 ∧
        calculateNextOccurrence slotC5 1712750400 0 =
          civilToDays y m (min (orDefaultInt slotC5.dayOfMonth 1) (monthLen y m)) *
              86400 + slotTimeSec slotC5 - slotC5.tzOffset) := by
  refine ⟨by unfold SlotWF; decide, by decide, by decide, ?_⟩
  exact C5_monthly_no_skip slotC5 1712750400 0 (by unfold SlotWF; decide) rfl

/-- Every task the loop inserts belongs to the slot, is pending, is strictly
future, and sits at an instant that was not in the used set. -/
theorem syncLoop_newTasks_spec (s : BookingSlot) (now : Int) :
    ∀ (fuel : Nat) (offset : Int) (needed : Nat) (used : List Int)
      (u : BookingTask), u ∈ (syncLoop s now fuel offset needed used).newTasks →
      u.slotId = s.id ∧ u.status = TaskStatus.pending ∧ now < u.scheduledDate ∧
        u.scheduledDate ∉ used := by
  intro fuel
  induction fuel with
  | zero => intro offset needed used u hu; simp [syncLoop] at hu
  | succ n ih =>
    intro offset needed used u hu
    simp only [syncLoop] at hu
    split_ifs at hu with h0 hskip
    · simp at hu
    · exact ⟨(ih _ _ _ u hu).1, (ih _ _ _ u hu).2.1, (ih _ _ _ u hu).2.2.1,
        (ih _ _ _ u hu).2.2.2⟩
    · simp only [List.mem_cons] at hu
      rcases hu with rfl | hu
      · push_neg at hskip
        refine ⟨rfl, rfl, ?_, ?_⟩
        · show now < calculateNextOccurrence s now offset
          exact hskip.1
        · show calculateNextOccurrence s now offset ∉ used
          exact hskip.2
      · have h := ih _ _ _ u hu
        refine ⟨h.1, h.2.1, h.2.2.1, fun hmem => h.2.2.2 ?_⟩
        simp only [normalizeDatetime, List.mem_cons]
        exact Or.inr hmem

/-- The inserted tasks have pairwise distinct occurrence instants. -/
theorem syncLoop_newTasks_distinct (s : BookingSlot) (now : Int) :
    ∀ (fuel : Nat) (offset : Int) (needed : Nat) (used : List Int),
      (syncLoop s now fuel offset needed used).newTasks.Pairwise
        (fun a b => a.scheduledDate ≠ b.scheduledDate) := by
  intro fuel
  induction fuel with
  | zero => intro offset needed used; simp [syncLoop]
  | succ n ih =>
    intro offset needed used
    simp only [syncLoop]
    split_ifs with h0 hskip
    · simp
    · exact ih _ _ _
    · refine List.pairwise_cons.2 ⟨?_, ih _ _ _⟩
      intro u hu
      have h := syncLoop_newTasks_spec s now n (offset + 1) (needed - 1)
        (normalizeDatetime (calculateNextOccurrence s now offset) :: used) u hu
      intro heq
      exact h.2.2.2 (by rw [← heq]; exact List.mem_cons_self _ _)

/-- The loop inserts at most `needed` tasks, and exactly `needed` when it
reports completion. -/
theorem syncLoop_newTasks_length (s : BookingSlot) (now : Int) :
    ∀ (fuel : Nat) (offset : Int) (needed : Nat) (used : List Int),
      (syncLoop s now fuel offset needed used).newTasks.length ≤ needed ∧
      ((syncLoop s now fuel offset needed used).finished = true →
        (syncLoop s now fuel offset needed used).newTasks.length = needed) ∧
      (syncLoop s now fuel offset needed used).newTasks.length ≤ fuel := by
  intro fuel
  induction fuel with
  | zero =>
    intro offset needed used
    refine ⟨by simp [syncLoop], ?_, by simp [syncLoop]⟩
    simp only [syncLoop]
    intro h
    simp at h ⊢
    omega
  | succ n ih =>
    intro offset needed used
    simp only [syncLoop]
    split_ifs with h0 hskip
    · subst h0; simp
    · obtain ⟨h1, h2, h3⟩ := ih (offset + 1) needed used
      exact ⟨h1, h2, by omega⟩
    · obtain ⟨h1, h2, h3⟩ := ih (offset + 1) (needed - 1)
        (normalizeDatetime (calculateNextOccurrence s now offset) :: used)
      refine ⟨?_, ?_, ?_⟩
      · simp only [List.length_cons]
        omega
      · intro hf
        simp only [List.length_cons]
        have := h2 hf
        omega
      · simp only [List.length_cons]
        omega

/-- `refreshAttempt` only changes the attempt instant. -/
theorem refreshAttempt_fields (s : BookingSlot) (now : Int) (t : BookingTask) :
    (refreshAttempt s now t).slotId = t.slotId ∧
      (refreshAttempt s now t).scheduledDate = t.scheduledDate ∧
      (refreshAttempt s now t).status = t.status := by
  unfold refreshAttempt
  split_ifs <;> exact ⟨rfl, rfl, rfl⟩

/-- A non-pending future task of the slot survives a reset and contributes
its instant to the used set. -/
theorem mem_usedDatesOf_of_processed (s : BookingSlot) (now : Int)
    (db1 : List BookingTask) (t : BookingTask) (ht : t ∈ db1)
    (hslot : t.slotId = s.id) (hstat : t.status ≠ TaskStatus.pending)
    (hfut : now ≤ t.scheduledDate) :
    t.scheduledDate ∈ usedDatesOf s now db1 := by
  unfold usedDatesOf
  rw [List.mem_append]
  right
  rw [List.mem_map]
  refine ⟨t, ?_, rfl⟩
  rw [List.mem_filter]
  refine ⟨ht, ?_⟩
  unfold isFutureProcessed
  simp only [Bool.and_eq_true, beq_iff_eq, Bool.not_eq_true', decide_eq_true_eq]
  refine ⟨⟨hslot, ?_⟩, hfut⟩
  simp only [beq_eq_false_iff_ne, ne_eq]
  exact hstat

/-- A reset-surviving task was in the database. -/
theorem resetIfRequested_sublist (s : BookingSlot) (reset : Bool)
    (db : List BookingTask) : (resetIfRequested s reset db).Sublist db := by
  unfold resetIfRequested
  split_ifs
  · exact List.filter_sublist db
  · exact List.Sublist.refl db

/-- An inactive slot makes `sync_pending_tasks` a no-op. -/
theorem syncPendingTasks_inactive (fuel : Nat) (s : BookingSlot) (now : Int)
    (count : Nat) (reset : Bool) (db : List BookingTask)
    (h : s.isActive = false) :
    syncPendingTasks fuel s now count reset db = db := by
  simp [syncPendingTasks, h]

/-- Unfolding of `sync_pending_tasks` for an active slot. -/
theorem syncPendingTasks_active (fuel : Nat) (s : BookingSlot) (now : Int)
    (count : Nat) (reset : Bool) (db : List BookingTask)
    (h : s.isActive = true) :
    syncPendingTasks fuel s now count reset db =
      List.map (refreshAttempt s now) (resetIfRequested s reset db) ++
        (syncLoop s now fuel 0
          (count -
            (List.filter (isFuturePending s now) (resetIfRequested s reset db)).length)
          (usedDatesOf s now (resetIfRequested s reset db))).newTasks := by
  simp [syncPendingTasks, h]

/-- C1: once a task of the slot is non-pending at a still-future instant,
`sync_pending_tasks` never adds a pending task at that instant (the count of
pending tasks of the slot at that instant never grows), and the invariant
that no two pending tasks of one slot share an occurrence instant is
preserved by every call. -/
theorem C1_no_rebooking (fuel : Nat) (s : BookingSlot) (now : Int) (count : Nat)
    (reset : Bool) (db : List BookingTask) (t : BookingTask)
    (ht : t ∈ db) (hslot : t.slotId = s.id) (hstat : t.status ≠ TaskStatus.pending)
    (hfut : now ≤ t.scheduledDate) :
    ((syncPendingTasks fuel s now count reset db).countP
        (fun u => u.slotId == s.id && u.scheduledDate == t.scheduledDate &&
          u.status == TaskStatus.pending) ≤
      db.countP
        (fun u => u.slotId == s.id && u.scheduledDate == t.scheduledDate &&
          u.status == TaskStatus.pending)) ∧
    (PendingDistinct db → PendingDistinct (syncPendingTasks fuel s now count reset db)) := by
  rcases hb : s.isActive with hfalse | htrue
  · rw [syncPendingTasks_inactive fuel s now count reset db hb]
    exact ⟨Nat.le_refl _, fun h => h⟩
  rw [syncPendingTasks_active fuel s now count reset db hb]
  constructor
  · rw [List.countP_append]
    have hnew : (syncLoop s now fuel 0
        (count - (List.filter (isFuturePending s now) (resetIfRequested s reset db)).length)
        (usedDatesOf s now (resetIfRequested s reset db))).newTasks.countP
        (fun u => u.slotId == s.id && u.scheduledDate == t.scheduledDate &&
          u.status == TaskStatus.pending) = 0 := by
      rw [List.countP_eq_zero]
      intro u hu
      have hspec := syncLoop_newTasks_spec s now fuel 0 _ _ u hu
      have htmem : t ∈ resetIfRequested s reset db := by
        unfold resetIfRequested
        split_ifs
        · rw [List.mem_filter]
          refine ⟨ht, ?_⟩
          simp only [Bool.not_eq_true', Bool.and_eq_false_iff, beq_eq_false_iff_ne]
          right
          exact hstat
        · exact ht
      have hused := mem_usedDatesOf_of_processed s now _ t htmem hslot hstat hfut
      simp only [Bool.and_eq_true, beq_iff_eq]
      rintro ⟨⟨-, hdate⟩, -⟩
      exact hspec.2.2.2 (hdate ▸ hused)
    rw [hnew, Nat.add_zero]
    have hmap : (List.map (refreshAttempt s now) (resetIfRequested s reset db)).countP
        (fun u => u.slotId == s.id && u.scheduledDate == t.scheduledDate &&
          u.status == TaskStatus.pending) =
        (resetIfRequested s reset db).countP
        (fun u => u.slotId == s.id && u.scheduledDate == t.scheduledDate &&
          u.status == TaskStatus.pending) := by
      rw [List.countP_map]
      apply List.countP_congr
      intro u _
      obtain ⟨h1, h2, h3⟩ := refreshAttempt_fields s now u
      simp only [Function.comp, h1, h2, h3]
    rw [hmap]
    exact List.Sublist.countP_le _ (resetIfRequested_sublist s reset db)
  · intro hdist
    have hdist1 : PendingDistinct (resetIfRequested s reset db) :=
      List.Pairwise.sublist (resetIfRequested_sublist s reset db) hdist
    rw [PendingDistinct, List.pairwise_append]
    refine ⟨?_, ?_, ?_⟩
    · rw [List.pairwise_map]
      refine hdist1.imp_of_mem ?_
      intro a b _ _ hR
      obtain ⟨ha1, ha2, ha3⟩ := refreshAttempt_fields s now a
      obtain ⟨hb1, hb2, hb3⟩ := refreshAttempt_fields s now b
      rw [ha1, ha2, ha3, hb1, hb2, hb3]
      exact hR
    · refine (syncLoop_newTasks_distinct s now fuel 0 _ _).imp ?_
      intro a b hab
      intro _ _ _
      exact hab
    · intro a ha b hb
      intro hslots hapend hbpend
      have hbspec := syncLoop_newTasks_spec s now fuel 0 _ _ b hb
      rw [List.mem_map] at ha
      obtain ⟨a0, ha0mem, rfl⟩ := ha
      obtain ⟨ha1, ha2, ha3⟩ := refreshAttempt_fields s now a0
      rw [ha2]
      by_cases hfuta : now ≤ a0.scheduledDate
      · -- a future pending task of the slot: its instant is in the used set
        have : a0.scheduledDate ∈ usedDatesOf s now (resetIfRequested s reset db) := by
          unfold usedDatesOf
          rw [List.mem_append]
          left
          rw [List.mem_map]
          refine ⟨a0, ?_, rfl⟩
          rw [List.mem_filter]
          refine ⟨ha0mem, ?_⟩
          unfold isFuturePending
          simp only [Bool.and_eq_true, beq_iff_eq, decide_eq_true_eq]
          rw [ha1] at hslots
          rw [ha3] at hapend
          exact ⟨⟨hslots.trans hbspec.1, hapend⟩, hfuta⟩
        intro heq
        exact hbspec.2.2.2 (heq ▸ this)
      · -- a past task: the inserted task is strictly future
        intro heq
        have := hbspec.2.2.1
        omega

/-- A member satisfying `p` but not `q` makes the count of `q` strictly
smaller, provided `q` implies `p` on the list. -/
theorem countP_lt_of_mem {α : Type} (l : List α) (p q : α → Bool) (a : α)
    (ha : a ∈ l) (hpa : p a = true) (hqa : q a = false)
    (himp : ∀ x ∈ l, q x = true → p x = true) :
    l.countP q < l.countP p := by
  induction l with
  | nil => cases ha
  | cons b t ih =>
    rw [List.countP_cons, List.countP_cons]
    rcases List.mem_cons.1 ha with rfl | hat
    · rw [hpa, hqa]
      have hle : t.countP q ≤ t.countP p :=
        List.countP_mono_left (fun x hx => himp x (List.mem_cons_of_mem _ hx))
      simp
      omega
    · have hlt := ih hat (fun x hx => himp x (List.mem_cons_of_mem _ hx))
      have hbq := himp b (List.mem_cons_self _ _)
      cases hq : q b
      · simp only [Bool.false_eq_true, if_false]
        split_ifs <;> omega
      · rw [hbq hq]
        simp
        omega

/-- The slot's desired day-of-month is in `[1, 31]` for well-formed slots. -/
theorem desiredDay_bounds (s : BookingSlot) (hWF : SlotWF s) :
    1 ≤ desiredDayOf s ∧ desiredDayOf s ≤ 31 := by
  obtain ⟨-, -, -, -, -, hdm⟩ := hWF
  cases hv : s.dayOfMonth with
  | none => simp [desiredDayOf, orDefaultInt, hv]
  | some d =>
    rw [hv] at hdm
    simp only [dayOfMonthOK, decide_eq_true_eq] at hdm
    simp only [desiredDayOf, orDefaultInt, hv]
    split_ifs <;> omega

/-- Weekly/fortnightly occurrences are strictly future. -/
theorem weekly_occ_future (s : BookingSlot) (now : Int) (hWF : SlotWF s)
    (hf : s.frequency = Frequency.weekly ∨ s.frequency = Frequency.fortnightly)
    (o : Int) (ho : 0 ≤ o) : now < calculateNextOccurrence s now o := by
  obtain ⟨hh0, hh23, hm0, hm59, -, -⟩ := hWF
  have hinc : slotIncrement s = 7 ∨ slotIncrement s = 14 := by
    rcases hf with h | h
    · exact Or.inl (slotIncrement_weekly s h)
    · exact Or.inr (slotIncrement_fortnightly s h)
  rw [calculateNextOccurrence_weekly_eq s hf now o]
  rcases hinc with hi | hi <;>
    rw [hi] <;>
    simp only [pyWeekday, dayFloor, minuteFloor, dayNumber, slotTimeSec] <;>
    split_ifs <;>
    omega

/-- Weekly/fortnightly occurrences are strictly increasing from offset 1. -/
theorem weekly_occ_stepMono (s : BookingSlot) (now : Int) (hWF : SlotWF s)
    (hf : s.frequency = Frequency.weekly ∨ s.frequency = Frequency.fortnightly)
    (o : Int) (ho : 1 ≤ o) :
    calculateNextOccurrence s now o < calculateNextOccurrence s now (o + 1) := by
  obtain ⟨hh0, hh23, hm0, hm59, -, -⟩ := hWF
  have hinc : slotIncrement s = 7 ∨ slotIncrement s = 14 := by
    rcases hf with h | h
    · exact Or.inl (slotIncrement_weekly s h)
    · exact Or.inr (slotIncrement_fortnightly s h)
  rw [calculateNextOccurrence_weekly_eq s hf now o,
    calculateNextOccurrence_weekly_eq s hf now (o + 1)]
  rcases hinc with hi | hi <;>
    rw [hi] <;>
    simp only [pyWeekday, dayFloor, minuteFloor, dayNumber, slotTimeSec] <;>
    split_ifs <;>
    omega

/-- The offset-0 weekly occurrence is never after the offset-1 occurrence. -/
theorem weekly_occ_first_le (s : BookingSlot) (now : Int) (hWF : SlotWF s)
    (hf : s.frequency = Frequency.weekly ∨ s.frequency = Frequency.fortnightly) :
    calculateNextOccurrence s now 0 ≤ calculateNextOccurrence s now 1 := by
  obtain ⟨hh0, hh23, hm0, hm59, -, -⟩ := hWF
  have hinc : slotIncrement s = 7 ∨ slotIncrement s = 14 := by
    rcases hf with h | h
    · exact Or.inl (slotIncrement_weekly s h)
    · exact Or.inr (slotIncrement_fortnightly s h)
  rw [calculateNextOccurrence_weekly_eq s hf now 0,
    calculateNextOccurrence_weekly_eq s hf now 1]
  rcases hinc with hi | hi <;>
    rw [hi] <;>
    simp only [pyWeekday, dayFloor, minuteFloor, dayNumber, slotTimeSec] <;>
    split_ifs <;>
    omega

/-- Advancing the offset advances `total_months` by exactly one. -/
theorem monthlyTotalMonths_succ (s : BookingSlot) (now o : Int) :
    monthlyTotalMonthsOf s now (o + 1) = monthlyTotalMonthsOf s now o + 1 := by
  unfold monthlyTotalMonthsOf
  split_ifs <;> ring

/-- The monthly occurrence, in local seconds, in month-start form. -/
theorem monthly_occ_eq (s : BookingSlot) (hf : s.frequency = Frequency.monthly)
    (now o : Int) :
    calculateNextOccurrence s now o + s.tzOffset =
      (monthStart (monthlyTotalMonthsOf s now o) +
        (min (desiredDayOf s)
          (monthLen (monthlyTotalMonthsOf s now o / 12)
            (monthlyTotalMonthsOf s now o % 12 + 1)) - 1)) * 86400 +
        secOfDay (resultTimeOf s now) := by
  rw [calculateNextOccurrence_monthly_eq s hf now o]
  have hshift := civilToDays_day_shift (monthlyTotalMonthsOf s now o / 12)
    (monthlyTotalMonthsOf s now o % 12 + 1) 1
    (min (desiredDayOf s)
      (monthLen (monthlyTotalMonthsOf s now o / 12)
        (monthlyTotalMonthsOf s now o % 12 + 1)))
  have hms : monthStart (monthlyTotalMonthsOf s now o) =
      civilToDays (monthlyTotalMonthsOf s now o / 12)
        (monthlyTotalMonthsOf s now o % 12 + 1) 1 := rfl
  rw [hshift, hms]
  ring

/-- Monthly occurrences strictly increase with the offset. -/
theorem monthly_occ_stepMono (s : BookingSlot) (now : Int) (hWF : SlotWF s)
    (hf : s.frequency = Frequency.monthly) (o : Int) :
    calculateNextOccurrence s now o < calculateNextOccurrence s now (o + 1) := by
  have h1 := monthly_occ_eq s hf now o
  have h2 := monthly_occ_eq s hf now (o + 1)
  rw [monthlyTotalMonths_succ s now o] at h2
  have hms := monthStart_succ (monthlyTotalMonthsOf s now o)
  have hDle : min (desiredDayOf s)
      (monthLen (monthlyTotalMonthsOf s now o / 12)
        (monthlyTotalMonthsOf s now o % 12 + 1)) ≤
      monthLen (monthlyTotalMonthsOf s now o / 12)
        (monthlyTotalMonthsOf s now o % 12 + 1) := min_le_right _ _
  have hd1 := desiredDay_bounds s hWF
  have hlb := monthLen_bounds ((monthlyTotalMonthsOf s now o + 1) / 12)
    ((monthlyTotalMonthsOf s now o + 1) % 12 + 1)
  have hD1 : 1 ≤ min (desiredDayOf s)
      (monthLen ((monthlyTotalMonthsOf s now o + 1) / 12)
        ((monthlyTotalMonthsOf s now o + 1) % 12 + 1)) :=
    le_min (by omega) (by omega)
  omega

/-- `total_months` at offset `o` is the base month index advanced by the
offset plus the non-negative carry. -/
theorem monthlyTotalMonths_decomp (s : BookingSlot) (now o : Int) :
    monthlyTotalMonthsOf s now o =
      12 * (baseCivilOf s now).1 + ((baseCivilOf s now).2.1 - 1) + o +
        (if monthlyCandidateOf s now ≤ baseLocalOf s now then 1 else 0) := by
  unfold monthlyTotalMonthsOf
  split_ifs <;> ring

/-- Monthly occurrences are strictly future. -/
theorem monthly_occ_future (s : BookingSlot) (now : Int) (hWF : SlotWF s)
    (hf : s.frequency = Frequency.monthly) (o : Int) (ho : 0 ≤ o) :
    now < calculateNextOccurrence s now o := by
  have hocc := monthly_occ_eq s hf now o
  have hdec := monthlyTotalMonths_decomp s now o
  have hval := daysToCivil_valid (dayNumber (baseLocalOf s now))
  have hrt := civilToDays_daysToCivil (dayNumber (baseLocalOf s now))
  have hdb := desiredDay_bounds s hWF
  -- name the base civil triple
  set bC := daysToCivil (dayNumber (baseLocalOf s now)) with hbC
  have hbCeq : baseCivilOf s now = bC := rfl
  rw [hbCeq] at hdec
  -- base day number in month-start form
  have hmsb : monthStart (12 * bC.1 + bC.2.1 - 1) = civilToDays bC.1 bC.2.1 1 :=
    monthStart_eq bC.1 bC.2.1 hval.1 hval.2.1
  have hshiftb := civilToDays_day_shift bC.1 bC.2.1 1 bC.2.2
  have hN : dayNumber (baseLocalOf s now) =
      monthStart (12 * bC.1 + bC.2.1 - 1) + (bC.2.2 - 1) := by
    rw [hmsb]
    omega
  -- the candidate in month-start form
  have hshiftc := civilToDays_day_shift bC.1 bC.2.1 1
    (min (desiredDayOf s) (monthLen bC.1 bC.2.1))
  have hcand : monthlyCandidateOf s now =
      (monthStart (12 * bC.1 + bC.2.1 - 1) +
        (min (desiredDayOf s) (monthLen bC.1 bC.2.1) - 1)) * 86400 +
        secOfDay (resultTimeOf s now) := by
    unfold monthlyCandidateOf
    rw [hbCeq, hshiftc, hmsb]
  -- day-number bounds of the local reference instant
  have hblDecomp : 86400 * dayNumber (baseLocalOf s now) ≤ baseLocalOf s now ∧
      baseLocalOf s now < 86400 * (dayNumber (baseLocalOf s now) + 1) := by
    unfold dayNumber
    omega
  have hsod : 0 ≤ secOfDay (resultTimeOf s now) ∧
      secOfDay (resultTimeOf s now) < 86400 := by
    unfold secOfDay
    omega
  have hlenb := monthLen_bounds bC.1 bC.2.1
  have hlent := monthLen_bounds (monthlyTotalMonthsOf s now o / 12)
    (monthlyTotalMonthsOf s now o % 12 + 1)
  have hbase : now = baseLocalOf s now - s.tzOffset := by
    unfold baseLocalOf
    ring
  by_cases hc : monthlyCandidateOf s now ≤ baseLocalOf s now
  · -- carry = 1: the target month is strictly after the base month
    rw [if_pos hc] at hdec
    have hk : monthStart (12 * bC.1 + bC.2.1 - 1) + monthLen bC.1 bC.2.1 ≤
        monthStart (monthlyTotalMonthsOf s now o) := by
      have := monthStart_next (12 * bC.1 + bC.2.1 - 1) (o + 1).toNat (by omega)
      rw [show ((o + 1).toNat : Int) = o + 1 by omega] at this
      rw [show 12 * bC.1 + bC.2.1 - 1 + (o + 1) =
        12 * (bC.1) + (bC.2.1 - 1) + o + 1 by ring] at this
      rw [← hdec] at this
      rw [show (12 * bC.1 + bC.2.1 - 1) / 12 = bC.1 by omega,
        show (12 * bC.1 + bC.2.1 - 1) % 12 + 1 = bC.2.1 by omega] at this
      exact this
    have hD1 : 1 ≤ min (desiredDayOf s)
        (monthLen (monthlyTotalMonthsOf s now o / 12)
          (monthlyTotalMonthsOf s now o % 12 + 1)) := le_min (by omega) (by omega)
    omega
  · -- carry = 0
    rw [if_neg hc] at hdec
    push_neg at hc
    by_cases ho0 : o = 0
    · -- offset 0: the occurrence is the candidate itself
      subst ho0
      have htm : monthlyTotalMonthsOf s now 0 = 12 * bC.1 + bC.2.1 - 1 := by
        omega
      have hdecomp1 : (12 * bC.1 + bC.2.1 - 1) / 12 = bC.1 := by omega
      have hdecomp2 : (12 * bC.1 + bC.2.1 - 1) % 12 + 1 = bC.2.1 := by omega
      rw [htm, hdecomp1, hdecomp2] at hocc
      rw [← hcand] at hocc
      omega
    · -- offset ≥ 1: at least one whole month ahead
      have hk : monthStart (12 * bC.1 + bC.2.1 - 1) + monthLen bC.1 bC.2.1 ≤
          monthStart (monthlyTotalMonthsOf s now o) := by
        have := monthStart_next (12 * bC.1 + bC.2.1 - 1) o.toNat (by omega)
        rw [show (o.toNat : Int) = o by omega] at this
        rw [show 12 * bC.1 + bC.2.1 - 1 + o =
          12 * (bC.1) + (bC.2.1 - 1) + o + 0 by ring] at this
        rw [← hdec] at this
        rw [show (12 * bC.1 + bC.2.1 - 1) / 12 = bC.1 by omega,
          show (12 * bC.1 + bC.2.1 - 1) % 12 + 1 = bC.2.1 by omega] at this
        exact this
      have hD1 : 1 ≤ min (desiredDayOf s)
          (monthLen (monthlyTotalMonthsOf s now o / 12)
            (monthlyTotalMonthsOf s now o % 12 + 1)) := le_min (by omega) (by omega)
      omega

/-- Candidate occurrences are strictly future, for every frequency. -/
theorem occ_future (s : BookingSlot) (now : Int) (hWF : SlotWF s) (o : Int)
    (ho : 0 ≤ o) : now < calculateNextOccurrence s now o := by
  cases hfq : s.frequency with
  | weekly => exact weekly_occ_future s now hWF (Or.inl hfq) o ho
  | fortnightly => exact weekly_occ_future s now hWF (Or.inr hfq) o ho
  | monthly => exact monthly_occ_future s now hWF hfq o ho

/-- Candidate occurrences are strictly increasing from offset 1 on, for
every frequency. -/
theorem occ_stepMono (s : BookingSlot) (now : Int) (hWF : SlotWF s) (o : Int)
    (ho : 1 ≤ o) :
    calculateNextOccurrence s now o < calculateNextOccurrence s now (o + 1) := by
  cases hfq : s.frequency with
  | weekly => exact weekly_occ_stepMono s now hWF (Or.inl hfq) o ho
  | fortnightly => exact weekly_occ_stepMono s now hWF (Or.inr hfq) o ho
  | monthly => exact monthly_occ_stepMono s now hWF hfq o

/-- Core termination argument: from offset 1 on the candidate stream is
strictly increasing and future, so each iteration either inserts a task or
permanently passes a used instant; fuel exceeding `needed` plus the number
of used instants still ahead of the stream suffices. -/
theorem syncLoop_finishes_from (s : BookingSlot) (now : Int) (hWF : SlotWF s) :
    ∀ (fuel : Nat) (offset : Int) (needed : Nat) (used : List Int),
      1 ≤ offset →
      needed + used.countP
        (fun x => decide (calculateNextOccurrence s now offset ≤ x)) < fuel →
      (syncLoop s now fuel offset needed used).finished = true := by
  intro fuel
  induction fuel with
  | zero =>
    intro offset needed used hoff hlt
    omega
  | succ n ih =>
    intro offset needed used hoff hlt
    simp only [syncLoop]
    split_ifs with h0 hskip
    · rfl
    · rcases hskip with hpast | hmem
      · have := occ_future s now hWF offset (by omega)
        omega
      · simp only [normalizeDatetime] at hmem
        have hstep := occ_stepMono s now hWF offset hoff
        have hdrop : used.countP
            (fun x => decide (calculateNextOccurrence s now (offset + 1) ≤ x)) <
            used.countP
            (fun x => decide (calculateNextOccurrence s now offset ≤ x)) := by
          refine countP_lt_of_mem used _ _ (calculateNextOccurrence s now offset)
            hmem (by simp) (by simp; omega) ?_
          intro x hx hq
          simp only [decide_eq_true_eq] at hq ⊢
          omega
        exact ih (offset + 1) needed used (by omega) (by omega)
    · have hstep := occ_stepMono s now hWF offset hoff
      have hped : ¬(needed = 0) := h0
      have hcons : (normalizeDatetime (calculateNextOccurrence s now offset) ::
            used).countP
            (fun x => decide (calculateNextOccurrence s now (offset + 1) ≤ x)) ≤
          used.countP
            (fun x => decide (calculateNextOccurrence s now offset ≤ x)) := by
        rw [List.countP_cons]
        have hmono : used.countP
            (fun x => decide (calculateNextOccurrence s now (offset + 1) ≤ x)) ≤
            used.countP
            (fun x => decide (calculateNextOccurrence s now offset ≤ x)) := by
          refine List.countP_mono_left ?_
          intro x hx hq
          simp only [decide_eq_true_eq] at hq ⊢
          omega
        simp only [normalizeDatetime]
        split_ifs with hq
        · simp only [decide_eq_true_eq] at hq
          omega
        · omega
      exact ih (offset + 1) (needed - 1) _ (by omega) (by omega)

/-- The insertion loop of `sync_pending_tasks` reaches its target count
whenever the fuel exceeds the target plus the number of used instants by at
least two. -/
theorem syncLoop_finishes (s : BookingSlot) (now : Int) (hWF : SlotWF s)
    (needed : Nat) (used : List Int) (fuel : Nat)
    (hfuel : needed + used.length + 2 ≤ fuel) :
    (syncLoop s now fuel 0 needed used).finished = true := by
  cases fuel with
  | zero => omega
  | succ n =>
    simp only [syncLoop]
    split_ifs with h0 hskip
    · rfl
    · refine syncLoop_finishes_from s now hWF n 1 needed used (by omega) ?_
      have := @List.countP_le_length _
        (fun x => decide (calculateNextOccurrence s now 1 ≤ x)) used
      omega
    · refine syncLoop_finishes_from s now hWF n 1 (needed - 1) _ (by omega) ?_
      have := @List.countP_le_length _
        (fun x => decide (calculateNextOccurrence s now 1 ≤ x))
        (normalizeDatetime (calculateNextOccurrence s now 0) :: used)
      simp only [List.length_cons] at this
      omega

/-- With the target already met, the loop inserts nothing, whatever the
fuel. -/
theorem syncLoop_needed_zero (s : BookingSlot) (now : Int) (fuel : Nat)
    (offset : Int) (used : List Int) :
    (syncLoop s now fuel offset 0 used).newTasks = [] := by
  cases fuel <;> simp [syncLoop]

/-- Refreshing the attempt instant does not change whether a task is a
future pending task of the slot. -/
theorem isFuturePending_refreshAttempt (s : BookingSlot) (now : Int)
    (t : BookingTask) :
    isFuturePending s now (refreshAttempt s now t) = isFuturePending s now t := by
  obtain ⟨h1, h2, h3⟩ := refreshAttempt_fields s now t
  unfold isFuturePending
  rw [h1, h2, h3]

/-- Refreshing twice is the same as refreshing once. -/
theorem refreshAttempt_idem (s : BookingSlot) (now : Int) (t : BookingTask) :
    refreshAttempt s now (refreshAttempt s now t) = refreshAttempt s now t := by
  unfold refreshAttempt
  split_ifs with h1 h2
  · rfl
  · exact absurd (by
      have := isFuturePending_refreshAttempt s now t
      unfold refreshAttempt at this
      rw [if_pos h1] at this
      rw [this]
      exact h1) h2
  · rfl

/-- Inserted tasks carry the freshly computed attempt instant. -/
theorem syncLoop_newTasks_attempt (s : BookingSlot) (now : Int) :
    ∀ (fuel : Nat) (offset : Int) (needed : Nat) (used : List Int)
      (u : BookingTask), u ∈ (syncLoop s now fuel offset needed used).newTasks →
      u.attemptAt = some (calculateAttemptAt s u.scheduledDate (some now)) := by
  intro fuel
  induction fuel with
  | zero => intro offset needed used u hu; simp [syncLoop] at hu
  | succ n ih =>
    intro offset needed used u hu
    simp only [syncLoop] at hu
    split_ifs at hu with h0 hskip
    · simp at hu
    · exact ih _ _ _ u hu
    · simp only [List.mem_cons] at hu
      rcases hu with rfl | hu
      · rfl
      · exact ih _ _ _ u hu

/-- After a sufficiently fuelled `sync_pending_tasks`, an active well-formed
slot has at least `count` future pending tasks. -/
theorem syncPendingTasks_fills (s : BookingSlot) (now : Int) (count : Nat)
    (reset : Bool) (db : List BookingTask) (hWF : SlotWF s)
    (hact : s.isActive = true) (fuel : Nat)
    (hfuel : count + 2 * db.length + 2 ≤ fuel) :
    count ≤
      ((syncPendingTasks fuel s now count reset db).filter
        (isFuturePending s now)).length := by
  rw [syncPendingTasks_active fuel s now count reset db hact]
  rw [List.filter_append]
  have hused : (usedDatesOf s now (resetIfRequested s reset db)).length ≤
      2 * db.length := by
    have hsub := resetIfRequested_sublist s reset db
    have h1 := List.Sublist.length_le hsub
    unfold usedDatesOf
    rw [List.length_append, List.length_map, List.length_map]
    have h2 := List.Sublist.length_le
      (@List.filter_sublist _ (isFuturePending s now) (resetIfRequested s reset db))
    have h3 := List.Sublist.length_le
      (@List.filter_sublist _ (isFutureProcessed s now) (resetIfRequested s reset db))
    omega
  have hfin := syncLoop_finishes s now hWF
    (count - (List.filter (isFuturePending s now) (resetIfRequested s reset db)).length)
    (usedDatesOf s now (resetIfRequested s reset db)) fuel
    (by
      have hsub := resetIfRequested_sublist s reset db
      have h1 := List.Sublist.length_le hsub
      have h2 := List.Sublist.length_le
        (@List.filter_sublist _ (isFuturePending s now) (resetIfRequested s reset db))
      omega)
  have hlen := (syncLoop_newTasks_length s now fuel 0
    (count - (List.filter (isFuturePending s now) (resetIfRequested s reset db)).length)
    (usedDatesOf s now (resetIfRequested s reset db))).2.1 hfin
  -- the inserted tasks all survive the future-pending filter
  have hnewfilter : (List.filter (isFuturePending s now)
      (syncLoop s now fuel 0
        (count - (List.filter (isFuturePending s now) (resetIfRequested s reset db)).length)
        (usedDatesOf s now (resetIfRequested s reset db))).newTasks) =
      (syncLoop s now fuel 0
        (count - (List.filter (isFuturePending s now) (resetIfRequested s reset db)).length)
        (usedDatesOf s now (resetIfRequested s reset db))).newTasks := by
    rw [List.filter_eq_self]
    intro u hu
    have hspec := syncLoop_newTasks_spec s now fuel 0 _ _ u hu
    unfold isFuturePending
    simp only [Bool.and_eq_true, beq_iff_eq, decide_eq_true_eq]
    exact ⟨⟨hspec.1, hspec.2.1⟩, by omega⟩
  -- the surviving-task filter keeps exactly the prior future pending tasks
  have hmapfilter : (List.filter (isFuturePending s now)
        (List.map (refreshAttempt s now) (resetIfRequested s reset db))).length =
      (List.filter (isFuturePending s now) (resetIfRequested s reset db)).length := by
    rw [List.filter_map]
    rw [List.length_map]
    congr 1
    apply List.filter_congr
    intro t _
    exact isFuturePending_refreshAttempt s now t
  rw [List.length_append, hnewfilter, hmapfilter, hlen]
  omega

/-- C10 counterexample: no fixed iteration cap governs the candidate search —
for any bound `B`, a request for more than `B` tasks cannot complete within
`B` iterations, yet the loop (which runs until the pending count is reached)
is still unfinished, so the search is not capped independently of the
target count. -/
theorem C10_counterexample :
    ¬ ∃ B : Nat, ∀ (s : BookingSlot) (now : Int) (needed : Nat) (used : List Int),
        (syncLoop s now B 0 needed used).finished = true := by
  rintro ⟨B, h⟩
  have hfin := h slotC4 0 (B + 1) []
  have hlen := (syncLoop_newTasks_length slotC4 0 B 0 (B + 1) []).2.1 hfin
  have hfuel := (syncLoop_newTasks_length slotC4 0 B 0 (B + 1) []).2.2
  omega

/-- C10 (amended): `sync_pending_tasks` terminates for every well-formed
slot rule — not because of an iteration cap (there is none), but because the
candidate occurrence stream is strictly increasing and future, so fuel
`count + 2·|db| + 2` always suffices for the loop to reach its target: the
synchronised slot ends up with at least `count` future pending tasks. -/
theorem C10_sync_terminates (s : BookingSlot) (now : Int) (count : Nat)
    (reset : Bool) (db : List BookingTask) (hWF : SlotWF s)
    (hact : s.isActive = true) (fuel : Nat)
    (hfuel : count + 2 * db.length + 2 ≤ fuel) :
    (syncLoop s now fuel 0
        (count -
          (List.filter (isFuturePending s now) (resetIfRequested s reset db)).length)
        (usedDatesOf s now (resetIfRequested s reset db))).finished = true ∧
      count ≤
        ((syncPendingTasks fuel s now count reset db).filter
          (isFuturePending s now)).length := by
  constructor
  · refine syncLoop_finishes s now hWF _ _ fuel ?_
    have hsub := resetIfRequested_sublist s reset db
    have h1 := List.Sublist.length_le hsub
    have h2 := List.Sublist.length_le
      (@List.filter_sublist _ (isFuturePending s now) (resetIfRequested s reset db))
    have h3 := List.Sublist.length_le
      (@List.filter_sublist _ (isFutureProcessed s now) (resetIfRequested s reset db))
    have h4 : (usedDatesOf s now (resetIfRequested s reset db)).length ≤
        2 * db.length := by
      unfold usedDatesOf
      rw [List.length_append, List.length_map, List.length_map]
      omega
    omega
  · exact syncPendingTasks_fills s now count reset db hWF hact fuel hfuel

/-- Mapping a function that fixes every member is the identity. -/
theorem map_eq_self_of_mem {α : Type} (f : α → α) (l : List α)
    (h : ∀ x ∈ l, f x = x) : l.map f = l := by
  induction l with
  | nil => rfl
  | cons a t ih =>
    simp only [List.map_cons]
    rw [h a (List.mem_cons_self _ _), ih (fun x hx => h x (List.mem_cons_of_mem _ hx))]

/-- Writing back the attempt instant a task already carries is a no-op. -/
theorem setAttempt_eq_self (t : BookingTask) (v : Option Int)
    (h : t.attemptAt = v) : { t with attemptAt := v } = t := by
  cases t
  simp_all

/-- C2: a second, immediately consecutive `sync_pending_tasks` call (same
reference instant, same count, no intervening task or slot changes) returns
the database unchanged: it inserts no task and leaves the set of pending
occurrence instants exactly as after the first call. -/
theorem C2_sync_idempotent (s : BookingSlot) (now : Int) (count : Nat)
    (db : List BookingTask) (hWF : SlotWF s) (fuel1 fuel2 : Nat)
    (hfuel : count + 2 * db.length + 2 ≤ fuel1) :
    syncPendingTasks fuel2 s now count false
        (syncPendingTasks fuel1 s now count false db) =
      syncPendingTasks fuel1 s now count false db := by
  cases hact : s.isActive with
  | false => exact syncPendingTasks_inactive fuel2 s now count false _ hact
  | true =>
    have hfill := syncPendingTasks_fills s now count false db hWF hact fuel1 hfuel
    rw [syncPendingTasks_active fuel2 s now count false
      (syncPendingTasks fuel1 s now count false db) hact]
    have hreset : resetIfRequested s false
        (syncPendingTasks fuel1 s now count false db) =
        syncPendingTasks fuel1 s now count false db := rfl
    rw [hreset]
    have hzero : count - (List.filter (isFuturePending s now)
        (syncPendingTasks fuel1 s now count false db)).length = 0 := by
      omega
    rw [hzero, syncLoop_needed_zero, List.append_nil]
    apply map_eq_self_of_mem
    intro x hx
    rw [syncPendingTasks_active fuel1 s now count false db hact] at hx
    rcases List.mem_append.1 hx with hx1 | hx2
    · rcases List.mem_map.1 hx1 with ⟨t0, -, rfl⟩
      exact refreshAttempt_idem s now t0
    · have hspec := syncLoop_newTasks_spec s now fuel1 0 _ _ x hx2
      have hatt := syncLoop_newTasks_attempt s now fuel1 0 _ _ x hx2
      unfold refreshAttempt
      rw [if_pos ?_]
      · exact setAttempt_eq_self x _ hatt
      · unfold isFuturePending
        simp only [Bool.and_eq_true, beq_iff_eq, decide_eq_true_eq]
        exact ⟨⟨hspec.1, hspec.2.1⟩, by omega⟩

/-- Witness for C1 at a concrete database holding one failed future task. -/
theorem C1_no_rebooking_witness :
    taskC1 ∈ dbC1 ∧ taskC1.slotId = slotW.id ∧
      taskC1.status ≠ TaskStatus.pending ∧ (0 : Int) ≤ taskC1.scheduledDate ∧
      (((syncPendingTasks 5 slotW 0 1 false dbC1).countP
          (fun u => u.slotId == slotW.id &&
            u.scheduledDate == taskC1.scheduledDate &&
            u.status == TaskStatus.pending) ≤
        dbC1.countP
          (fun u => u.slotId == slotW.id &&
            u.scheduledDate == taskC1.scheduledDate &&
            u.status == TaskStatus.pending)) ∧
       (PendingDistinct dbC1 →
         PendingDistinct (syncPendingTasks 5 slotW 0 1 false dbC1))) :=
  ⟨by decide, by decide, by decide, by decide,
    C1_no_rebooking 5 slotW 0 1 false dbC1 taskC1 (by decide) (by decide)
      (by decide) (by decide)⟩

/-- Witness for C2 on the empty database. -/
theorem C2_sync_idempotent_witness :
    SlotWF slotW ∧ 1 + 2 * ([] : List BookingTask).length + 2 ≤ 3 ∧
      syncPendingTasks 4 slotW 0 1 false (syncPendingTasks 3 slotW 0 1 false []) =
        syncPendingTasks 3 slotW 0 1 false [] :=
  ⟨by unfold SlotWF; decide, by decide,
    C2_sync_idempotent slotW 0 1 [] (by unfold SlotWF; decide) 3 4 (by decide)⟩

/-- Witness for C4 at the concrete slot `slotW` and offset 2. -/
theorem C4_weekly_occurrence_grid_witness :
    SlotWF slotW ∧ slotW.dayOfWeek = some 1 ∧ (0 : Int) ≤ 2 ∧
      (pyWeekday (calculateNextOccurrence slotW 1000 2 + slotW.tzOffset) =
          (1 + 6) % 7 ∧
        secOfDay (calculateNextOccurrence slotW 1000 2 + slotW.tzOffset) =
          slotTimeSec slotW ∧
        1000 < calculateNextOccurrence slotW 1000 2 ∧
        (1 ≤ (2 : Int) → calculateNextOccurrence slotW 1000 (2 + 1) =
          calculateNextOccurrence slotW 1000 2 + slotIncrement slotW * 86400) ∧
        (calculateNextOccurrence slotW 1000 1 = calculateNextOccurrence slotW 1000 0 ∨
          calculateNextOccurrence slotW 1000 1 =
            calculateNextOccurrence slotW 1000 0 + slotIncrement slotW * 86400)) :=
  ⟨by unfold SlotWF; decide, rfl, by decide,
    C4_weekly_occurrence_grid slotW 1000 1 2 (by unfold SlotWF; decide)
      (Or.inl rfl) rfl (by decide)⟩

/-- Witness for the amended C10 on the empty database. -/
theorem C10_sync_terminates_witness :
    SlotWF slotW ∧ slotW.isActive = true ∧ 1 + 2 * ([] : List BookingTask).length + 2 ≤ 3 ∧
      ((syncLoop slotW 0 3 0
          (1 - (List.filter (isFuturePending slotW 0)
            (resetIfRequested slotW false [])).length)
          (usedDatesOf slotW 0 (resetIfRequested slotW false []))).finished = true ∧
        1 ≤ ((syncPendingTasks 3 slotW 0 1 false []).filter
          (isFuturePending slotW 0)).length) :=
  ⟨by unfold SlotWF; decide, rfl, by decide,
    C10_sync_terminates slotW 0 1 false [] (by unfold SlotWF; decide) rfl 3 (by decide)⟩

theorem pairwise_trivial {α : Type} {R : α → α → Prop} (h : ∀ a b, R a b) :
    ∀ l : List α, l.Pairwise R
  | [] => .nil
  | a :: t => .cons (fun b _ => h a b) (pairwise_trivial h t)

theorem indexRank_mem {α : Type} [DecidableEq α] (v : α) (c : List α)
    (h : v ∈ c) : c.get? (indexRank v c) = some v := by
  have hne : c.isEmpty = false := by
    cases c with
    | nil => simp at h
    | cons a t => rfl
  simpa [indexRank, hne] using List.indexOf_get? h

theorem indexOf_lt_ne {α : Type} [DecidableEq α] (v : α) :
    ∀ (c : List α) (j : Nat), j < List.indexOf v c → c.get? j ≠ some v := by
  intro c
  induction c with
  | nil => intro j hj; simp [List.indexOf] at hj
  | cons a t ih =>
      intro j hj
      rw [List.indexOf_cons] at hj
      by_cases hav : a = v
      · simp [hav] at hj
      · have hbeq : (a == v) = false := by simp [hav]
        rw [hbeq] at hj
        simp only [cond_false] at hj
        cases j with
        | zero => simp [hav]
        | succ j' =>
            have := ih j' (by omega)
            simpa using this

theorem indexRank_first {α : Type} [DecidableEq α] (v : α) (c : List α)
    (j : Nat) (hj : j < indexRank v c) : c.get? j ≠ some v := by
  unfold indexRank at hj
  by_cases he : c.isEmpty
  · simp [he] at hj
  · simp only [he, if_false] at hj
    exact indexOf_lt_ne v c j hj

theorem indexRank_not_mem {α : Type} [DecidableEq α] (v : α) (c : List α)
    (h : v ∉ c) : indexRank v c = if c.isEmpty then 0 else c.length := by
  unfold indexRank
  by_cases he : c.isEmpty
  · simp [he]
  · simp only [he, if_false]
    exact List.indexOf_eq_length.mpr h

theorem matchFirst_some_spec (value : String) :
    ∀ (c : List String) (i : Nat), matchFirst value c = some i →
      (∃ cand, c.get? i = some cand ∧ lowerContains value cand = true) ∧
      ∀ j, j < i → ∀ cand, c.get? j = some cand →
        lowerContains value cand = false := by
  intro c
  induction c with
  | nil => intro i hi; simp [matchFirst] at hi
  | cons cand rest ih =>
      intro i hi
      unfold matchFirst at hi
      by_cases hm : lowerContains value cand
      · simp only [hm, if_true] at hi
        obtain rfl : (0 : Nat) = i := Option.some_injective _ hi
        refine ⟨⟨cand, rfl, hm⟩, ?_⟩
        intro j hj; omega
      · simp only [hm, if_false] at hi
        rcases hrest : matchFirst value rest with _ | i'
        · rw [hrest] at hi; simp at hi
        · rw [hrest] at hi
          simp only [Option.map_some'] at hi
          obtain rfl : i' + 1 = i := Option.some_injective _ hi
          obtain ⟨⟨cand', hget, hc'⟩, hmin⟩ := ih i' hrest
          refine ⟨⟨cand', by simpa using hget, hc'⟩, ?_⟩
          intro j hj cand2 hget2
          cases j with
          | zero =>
              simp only [List.get?] at hget2
              obtain rfl : cand = cand2 := Option.some_injective _ hget2
              simpa using hm
          | succ j' =>
              exact hmin j' (by omega) cand2 (by simpa using hget2)

theorem matchFirst_eq_none_iff (value : String) :
    ∀ c : List String, matchFirst value c = none ↔
      ∀ cand ∈ c, lowerContains value cand = false := by
  intro c
  induction c with
  | nil => simp [matchFirst]
  | cons cand rest ih =>
      unfold matchFirst
      by_cases hm : lowerContains value cand
      · simp [hm]
      · simp [hm, Option.map_eq_none', ih]

example (value : String) (c : List String) (hne : c ≠ [])
    (hall : ∀ cand ∈ c, lowerContains value cand = false) :
    matchRank value c = ⊤ := by
  have he : c.isEmpty = false := by
    cases c with
    | nil => exact absurd rfl hne
    | cons a t => rfl
  unfold matchRank
  rw [he, (matchFirst_eq_none_iff value c).mpr hall]
  rfl

/-- **C7** (corrected).  Both providers combine ranks as
`100 × time_rank + court_rank`.  The exact-index strategy follows the
claimed `indexOf` semantics: the position of the first match (0 = most
preferred), the list length when a non-empty list has no match, and 0 when
the preference list is empty — so empty preference lists never penalise
any candidate (rank 0 for better, original order preserved for
clubspark).  The substring strategy also returns the first matching index
and 0 on an empty list, and agrees with the claimed formula whenever some
court matches or the court list is empty; but on a non-empty court list
with no substring match it returns `float("inf")` (`⊤`), not the claimed
list length. -/
theorem C7_rank_semantics :
    (∀ slot : BetterSlot, rank_slot slot [] [] = 0) ∧
    (∀ slotOptions : List TimeSlot,
        rank_slots slotOptions [] [] =
          slotOptions.flatMap
            (fun ts => ts.Resources.map (fun r => ⟨ts.Time, r⟩))) ∧
    (∀ (v : Int) (c : List Int),
        (v ∈ c → c.get? (indexRank v c) = some v ∧
            ∀ j, j < indexRank v c → c.get? j ≠ some v) ∧
        (v ∉ c → indexRank v c = if c.isEmpty then 0 else c.length)) ∧
    (∀ (v : String) (c : List String),
        (v ∈ c → c.get? (indexRank v c) = some v ∧
            ∀ j, j < indexRank v c → c.get? j ≠ some v) ∧
        (v ∉ c → indexRank v c = if c.isEmpty then 0 else c.length)) ∧
    (∀ (value : String) (c : List String) (i : Nat), c ≠ [] →
        matchRank value c = (i : WithTop Nat) →
          (∃ cand, c.get? i = some cand ∧ lowerContains value cand = true) ∧
          ∀ j, j < i → ∀ cand, c.get? j = some cand →
            lowerContains value cand = false) ∧
    (∀ (value : String) (c : List String), c ≠ [] →
        (∀ cand ∈ c, lowerContains value cand = false) →
          matchRank value c = ⊤) ∧
    (∀ (slot : BetterSlot) (pt pc : List String),
        (pc = [] ∨ ∃ cand ∈ pc, lowerContains slot.locationName cand = true) →
          rank_slot slot pt pc = rank_slotSpec slot pt pc) := by
  refine ⟨?_, ?_, ?_, ?_, ?_, ?_, ?_⟩
  · intro slot
    simp [rank_slot, indexRank, matchRank]
  · intro slotOptions
    simp only [rank_slots]
    have hkey :
        (slotOptions.flatMap (fun timeSlot =>
          timeSlot.Resources.map (fun resource =>
            ((100 * indexRank timeSlot.Time ([] : List Int)
                + indexRank resource.Name ([] : List String) : Nat),
             (⟨timeSlot.Time, resource⟩ : CSRankedSlot))))) =
        (slotOptions.flatMap (fun ts =>
          ts.Resources.map (fun r => (⟨ts.Time, r⟩ : CSRankedSlot)))).map
            (fun r => ((0 : Nat), r)) := by
      rw [List.map_flatMap]
      refine List.flatMap_congr ?_
      intro ts _
      rw [List.map_map]
      refine List.map_congr_left ?_
      intro r _
      simp [indexRank]
    rw [hkey]
    have hsorted :
        ((slotOptions.flatMap (fun ts =>
            ts.Resources.map (fun r => (⟨ts.Time, r⟩ : CSRankedSlot)))).map
              (fun r => ((0 : Nat), r))).Pairwise
          (fun a b => (decide (a.1 ≤ b.1)) = true) := by
      rw [List.pairwise_map]
      exact pairwise_trivial (fun _ _ => by simp) _
    rw [List.mergeSort_of_sorted hsorted, List.map_map]
    simp
  · intro v c
    refine ⟨fun h => ⟨indexRank_mem v c h, fun j hj => indexRank_first v c j hj⟩,
      fun h => indexRank_not_mem v c h⟩
  · intro v c
    refine ⟨fun h => ⟨indexRank_mem v c h, fun j hj => indexRank_first v c j hj⟩,
      fun h => indexRank_not_mem v c h⟩
  · intro value c i hne hmr
    have he : c.isEmpty = false := by
      cases c with
      | nil => exact absurd rfl hne
      | cons a t => rfl
    unfold matchRank at hmr
    rw [he] at hmr
    simp only [Bool.false_eq_true, if_false] at hmr
    rcases hmf : matchFirst value c with _ | i'
    · rw [hmf] at hmr
      have htop : (⊤ : WithTop Nat) = (i : WithTop Nat) := hmr
      exact absurd htop.symm (by simp)
    · rw [hmf] at hmr
      have hcast : (i' : WithTop Nat) = (i : WithTop Nat) := hmr
      have : i' = i := by exact_mod_cast hcast
      subst this
      exact matchFirst_some_spec value c i' hmf
  · intro value c hne hall
    have he : c.isEmpty = false := by
      cases c with
      | nil => exact absurd rfl hne
      | cons a t => rfl
    unfold matchRank
    rw [he, (matchFirst_eq_none_iff value c).mpr hall]
    rfl
  · intro slot pt pc hmatch
    rcases hmatch with rfl | ⟨cand, hmem, hc⟩
    · simp only [rank_slot, rank_slotSpec, matchRank, matchRankSpec,
        List.isEmpty_nil, if_true]
      push_cast
      ring
    · have he : pc.isEmpty = false := by
        cases pc with
        | nil => simp at hmem
        | cons a t => rfl
      rcases hmf : matchFirst slot.locationName pc with _ | i
      · exfalso
        rw [matchFirst_eq_none_iff] at hmf
        rw [hmf cand hmem] at hc
        exact Bool.false_ne_true hc
      · simp only [rank_slot, rank_slotSpec, matchRank, matchRankSpec]
        rw [he, hmf]
        simp only [Bool.false_eq_true, if_false]
        push_cast
        ring

/-- **C7** counterexample: with an empty time preference and the single
non-matching court preference `"Court 3"`, a slot on `"Centre Court"` gets
rank `inf` from the code, whereas the claimed formula gives
`0 × 100 + len(preferred_courts) = 1`. -/
theorem C7_counterexample :
    rank_slot ⟨"10:00", "Centre Court"⟩ [] ["Court 3"] = ⊤ ∧
    rank_slotSpec ⟨"10:00", "Centre Court"⟩ [] ["Court 3"] =
      ((1 : Nat) : WithTop Nat) ∧
    rank_slot ⟨"10:00", "Centre Court"⟩ [] ["Court 3"] ≠
      rank_slotSpec ⟨"10:00", "Centre Court"⟩ [] ["Court 3"] := by
  refine ⟨by decide, by decide, by decide⟩

/-- **C7** witness: on inputs where a court preference does substring-match
(`"ourt 2"` inside `"Tennis Court 2"`), the code's rank agrees with the
claimed formula. -/
theorem C7_rank_semantics_witness :
    rank_slot ⟨"18:30", "Tennis Court 2"⟩ ["18:30"] ["Court 9", "ourt 2"] =
      rank_slotSpec ⟨"18:30", "Tennis Court 2"⟩ ["18:30"] ["Court 9", "ourt 2"] :=
  C7_rank_semantics.2.2.2.2.2.2 ⟨"18:30", "Tennis Court 2"⟩ ["18:30"]
    ["Court 9", "ourt 2"] (Or.inr ⟨"ourt 2", by decide, by decide⟩)

theorem bookBetterAttempts_all_none (creditsAllowed : Bool)
    (oracle : BetterSlot → BetterAttemptWorld) :
    ∀ l : List BetterSlot,
      (∀ s ∈ l, attemptBetterBooking creditsAllowed (oracle s) = none ∨
          attemptBetterBooking creditsAllowed (oracle s) = some "") →
        bookBetterAttempts creditsAllowed oracle l = none := by
  intro l
  induction l with
  | nil => intro _; rfl
  | cons slot rest ih =>
      intro h
      have hrec := ih (fun s hs => h s (by simp [hs]))
      rcases h slot (by simp) with ha | ha <;>
        simp [bookBetterAttempts, ha, hrec]

theorem bookBetterAttempts_append (creditsAllowed : Bool)
    (oracle : BetterSlot → BetterAttemptWorld) :
    ∀ (l1 : List BetterSlot) (slot : BetterSlot) (l2 : List BetterSlot)
      (confirmation : String),
      (∀ s ∈ l1, attemptBetterBooking creditsAllowed (oracle s) = none ∨
          attemptBetterBooking creditsAllowed (oracle s) = some "") →
      attemptBetterBooking creditsAllowed (oracle slot) = some confirmation →
      confirmation ≠ "" →
        bookBetterAttempts creditsAllowed oracle (l1 ++ slot :: l2) =
          some confirmation := by
  intro l1
  induction l1 with
  | nil =>
      intro slot l2 confirmation _ hs hne
      simp [bookBetterAttempts, hs, hne]
  | cons a t ih =>
      intro slot l2 confirmation h1 hs hne
      rw [List.cons_append]
      have hrec := ih slot l2 confirmation
        (fun s hmem => h1 s (by simp [hmem])) hs hne
      rcases h1 a (by simp) with ha | ha <;>
        simp [bookBetterAttempts, ha, hrec]

theorem bookClubsparkAttempts_all_none
    (oracle : CSRankedSlot → CSAttemptWorld) :
    ∀ l : List CSRankedSlot,
      (∀ r ∈ l, attemptClubsparkBooking (oracle r) = none) →
        bookClubsparkAttempts oracle l = none := by
  intro l
  induction l with
  | nil => intro _; rfl
  | cons ranked rest ih =>
      intro h
      have hrec := ih (fun r hr => h r (by simp [hr]))
      simp [bookClubsparkAttempts, h ranked (by simp), hrec]

theorem bookClubsparkAttempts_append (oracle : CSRankedSlot → CSAttemptWorld) :
    ∀ (l1 : List CSRankedSlot) (ranked : CSRankedSlot)
      (l2 : List CSRankedSlot) (confirmation : String),
      (∀ r ∈ l1, attemptClubsparkBooking (oracle r) = none) →
      attemptClubsparkBooking (oracle ranked) = some confirmation →
        bookClubsparkAttempts oracle (l1 ++ ranked :: l2) =
          some confirmation := by
  intro l1
  induction l1 with
  | nil =>
      intro ranked l2 confirmation _ hs
      simp [bookClubsparkAttempts, hs]
  | cons a t ih =>
      intro ranked l2 confirmation h1 hs
      rw [List.cons_append]
      have hrec := ih ranked l2 confirmation
        (fun r hmem => h1 r (by simp [hmem])) hs
      simp [bookClubsparkAttempts, h1 a (by simp), hrec]

theorem betterRanked_sorted (pt pc : List String) (slots : List BetterSlot) :
    (betterRanked pt pc slots).Pairwise
      (fun a b => rank_slot a pt pc ≤ rank_slot b pt pc) := by
  have h := @List.sorted_mergeSort BetterSlot
    (fun a b : BetterSlot =>
      decide (rank_slot a pt pc ≤ rank_slot b pt pc))
    (fun a b c hab hbc => by
      simp only [decide_eq_true_eq] at *
      exact le_trans hab hbc)
    (fun a b => by
      simp only [Bool.or_eq_true, decide_eq_true_eq]
      exact le_total _ _)
    slots
  exact h.imp (fun hab => by simpa using hab)

theorem rank_slots_key (sos : List TimeSlot) (pt : List Int)
    (pc : List String) :
    ∀ x ∈ sos.flatMap (fun timeSlot =>
        timeSlot.Resources.map (fun resource =>
          ((100 * indexRank timeSlot.Time pt
              + indexRank resource.Name pc : Nat),
           (⟨timeSlot.Time, resource⟩ : CSRankedSlot)))),
      x.1 = csRank pt pc x.2 := by
  intro x hx
  rw [List.mem_flatMap] at hx
  obtain ⟨ts, _, hx⟩ := hx
  rw [List.mem_map] at hx
  obtain ⟨r, _, rfl⟩ := hx
  rfl

theorem rank_slots_sorted (sos : List TimeSlot) (pt : List Int)
    (pc : List String) :
    (rank_slots sos pt pc).Pairwise
      (fun a b => csRank pt pc a ≤ csRank pt pc b) := by
  simp only [rank_slots]
  rw [List.pairwise_map]
  have hsorted := @List.sorted_mergeSort (Nat × CSRankedSlot)
    (fun a b : Nat × CSRankedSlot => decide (a.1 ≤ b.1))
    (fun a b c hab hbc => by
      simp only [decide_eq_true_eq] at *
      exact le_trans hab hbc)
    (fun a b => by
      simp only [Bool.or_eq_true, decide_eq_true_eq]
      exact le_total _ _)
    (sos.flatMap (fun timeSlot =>
      timeSlot.Resources.map (fun resource =>
        ((100 * indexRank timeSlot.Time pt
            + indexRank resource.Name pc : Nat),
         (⟨timeSlot.Time, resource⟩ : CSRankedSlot)))))
  refine hsorted.imp_of_mem ?_
  intro a b ha hb hab
  rw [List.mem_mergeSort] at ha hb
  have hka := rank_slots_key sos pt pc a ha
  have hkb := rank_slots_key sos pt pc b hb
  simp only [decide_eq_true_eq] at hab
  rw [hka, hkb] at hab
  exact hab

/-- **C6**.  Both provider handlers attempt at most `MAX_SLOT_ATTEMPTS`
(5 for Better, 3 for Clubspark) of the top-ranked candidates, in ascending
rank order; a per-candidate error aborts only that candidate; the first
candidate whose booking completes decides the overall result, earlier
failures are not surfaced; and if every attempted candidate fails the
overall result is failure.  For Better the loop guard is Python's
`if confirmation:`, so only a truthy (non-empty) confirmation counts as
success and an empty one falls through like a failure.  Scenario: with the first two candidates
failing on communication errors and the third succeeding, both handlers
return success with the third candidate's confirmation code. -/
theorem C6_bounded_first_success :
    (∀ (pt pc : List String) (slots : List BetterSlot),
        ((betterRanked pt pc slots).take betterMaxSlotAttempts).Pairwise
          (fun a b => rank_slot a pt pc ≤ rank_slot b pt pc)) ∧
    (∀ (sos : List TimeSlot) (pt : List Int) (pc : List String),
        ((rank_slots sos pt pc).take clubsparkMaxSlotAttempts).Pairwise
          (fun a b => csRank pt pc a ≤ csRank pt pc b)) ∧
    (∀ (creditsAllowed : Bool) (oracle : BetterSlot → BetterAttemptWorld)
        (slot : BetterSlot) (rest : List BetterSlot),
        (attemptBetterBooking creditsAllowed (oracle slot) = none ∨
         attemptBetterBooking creditsAllowed (oracle slot) = some "") →
          bookBetterAttempts creditsAllowed oracle (slot :: rest) =
            bookBetterAttempts creditsAllowed oracle rest) ∧
    (∀ (oracle : CSRankedSlot → CSAttemptWorld) (ranked : CSRankedSlot)
        (rest : List CSRankedSlot),
        attemptClubsparkBooking (oracle ranked) = none →
          bookClubsparkAttempts oracle (ranked :: rest) =
            bookClubsparkAttempts oracle rest) ∧
    (∀ (creditsAllowed : Bool) (oracle : BetterSlot → BetterAttemptWorld)
        (l1 : List BetterSlot) (slot : BetterSlot) (l2 : List BetterSlot)
        (confirmation : String),
        (∀ s ∈ l1, attemptBetterBooking creditsAllowed (oracle s) = none ∨
            attemptBetterBooking creditsAllowed (oracle s) = some "") →
        attemptBetterBooking creditsAllowed (oracle slot) =
            some confirmation →
        confirmation ≠ "" →
          bookBetterAttempts creditsAllowed oracle (l1 ++ slot :: l2) =
            some confirmation) ∧
    (∀ (oracle : CSRankedSlot → CSAttemptWorld) (l1 : List CSRankedSlot)
        (ranked : CSRankedSlot) (l2 : List CSRankedSlot)
        (confirmation : String),
        (∀ r ∈ l1, attemptClubsparkBooking (oracle r) = none) →
        attemptClubsparkBooking (oracle ranked) = some confirmation →
          bookClubsparkAttempts oracle (l1 ++ ranked :: l2) =
            some confirmation) ∧
    (∀ (creditsAllowed : Bool) (pt pc : List String)
        (slots : List BetterSlot) (oracle : BetterSlot → BetterAttemptWorld),
        (∀ s ∈ (betterRanked pt pc slots).take betterMaxSlotAttempts,
            attemptBetterBooking creditsAllowed (oracle s) = none ∨
            attemptBetterBooking creditsAllowed (oracle s) = some "") →
          bookBetter creditsAllowed pt pc slots oracle = none) ∧
    (∀ (sos : List TimeSlot) (pt : List Int) (pc : List String)
        (oracle : CSRankedSlot → CSAttemptWorld),
        (∀ r ∈ (rank_slots sos pt pc).take clubsparkMaxSlotAttempts,
            attemptClubsparkBooking (oracle r) = none) →
          bookClubspark sos pt pc oracle = none) ∧
    bookBetter true ["10:00", "11:00", "12:00"] [] betterScenarioSlots
        betterScenarioOracle = some "HASH3" ∧
    bookClubspark csScenarioSlots [600, 660, 720] [] csScenarioOracle =
      some "TX3" := by
  refine ⟨?_, ?_, ?_, ?_, ?_, ?_, ?_, ?_, ?_, ?_⟩
  · intro pt pc slots
    exact (betterRanked_sorted pt pc slots).sublist (List.take_sublist _ _)
  · intro sos pt pc
    exact (rank_slots_sorted sos pt pc).sublist (List.take_sublist _ _)
  · intro creditsAllowed oracle slot rest h
    rcases h with h | h <;> simp [bookBetterAttempts, h]
  · intro oracle ranked rest h
    simp [bookClubsparkAttempts, h]
  · intro creditsAllowed oracle l1 slot l2 confirmation h1 hs hne
    exact bookBetterAttempts_append creditsAllowed oracle l1 slot l2
      confirmation h1 hs hne
  · intro oracle l1 ranked l2 confirmation h1 hs
    exact bookClubsparkAttempts_append oracle l1 ranked l2 confirmation h1 hs
  · intro creditsAllowed pt pc slots oracle h
    exact bookBetterAttempts_all_none creditsAllowed oracle _ h
  · intro sos pt pc oracle h
    exact bookClubsparkAttempts_all_none oracle _ h
  · have hrank : betterRanked ["10:00", "11:00", "12:00"] []
        betterScenarioSlots = betterScenarioSlots := by
      unfold betterRanked
      exact List.mergeSort_of_sorted (by decide)
    unfold bookBetter
    rw [hrank]
    decide
  · have hpairs : (csScenarioSlots.flatMap (fun timeSlot =>
        timeSlot.Resources.map (fun resource =>
          ((100 * indexRank timeSlot.Time [600, 660, 720]
              + indexRank resource.Name ([] : List String) : Nat),
           (⟨timeSlot.Time, resource⟩ : CSRankedSlot))))) =
        [(0, ⟨600, ⟨"Court 1", 1000, "r1", "s1"⟩⟩),
         (100, ⟨660, ⟨"Court 1", 1000, "r2", "s2"⟩⟩),
         (200, ⟨720, ⟨"Court 1", 1000, "r3", "s3"⟩⟩)] := by decide
    have hsorted : ([(0, ⟨600, ⟨"Court 1", 1000, "r1", "s1"⟩⟩),
         (100, ⟨660, ⟨"Court 1", 1000, "r2", "s2"⟩⟩),
         (200, ⟨720, ⟨"Court 1", 1000, "r3", "s3"⟩⟩)] :
          List (Nat × CSRankedSlot)).Pairwise
        (fun a b => (decide (a.1 ≤ b.1)) = true) := by decide
    unfold bookClubspark
    simp only [rank_slots]
    rw [hpairs, List.mergeSort_of_sorted hsorted]
    decide

/-- **C6** witness: the Clubspark bound conjunct at a concrete
always-failing oracle yields overall failure. -/
theorem C6_bounded_first_success_witness :
    bookClubspark csScenarioSlots [600, 660, 720] []
      (fun _ => ⟨none, none⟩) = none :=
  C6_bounded_first_success.2.2.2.2.2.2.2.1 csScenarioSlots [600, 660, 720] []
    (fun _ => ⟨none, none⟩) (fun _ _ => rfl)

/-- **C8**.  `execute_booking_task` raises a typed `BookingExecutionError`
and leaves the task unmodified whenever the slot, provider or owner is
missing, the provider type is unregistered, or the handler reports
failure; it succeeds exactly when the relationships exist and the
registered handler reports success, and then sets the status to
`success`, clears the error message, and stamps `attempted_at` if unset.
The registry error arises exactly when no registered key matches the
lowercased provider type — a distinct kind from a handler-reported
failure. -/
theorem C8_executor_paths :
    ∀ (w : ExecWorld) (now : Int) (t : ExecTask),
      (∀ e, (executeBookingTask w now t).1 = Except.error e →
          (executeBookingTask w now t).2 = t) ∧
      ((executeBookingTask w now t).1 = Except.ok () ↔
        (w.slotExists = true ∧ w.providerExists = true ∧
         w.ownerExists = true ∧
         ∃ result, runBooking w.registry w.providerType = Except.ok result ∧
           result.success = true)) ∧
      ((executeBookingTask w now t).1 = Except.ok () →
        (executeBookingTask w now t).2 =
          { status := TaskStatus.success, errorMessage := none,
            attemptedAt := some (t.attemptedAt.getD now) }) ∧
      ((∃ e, runBooking w.registry w.providerType = Except.error e) ↔
        ∀ kv ∈ w.registry, kv.1 ≠ strLower w.providerType) := by
  intro w now t
  refine ⟨?_, ?_, ?_, ?_⟩
  · intro e h
    unfold executeBookingTask at h ⊢
    split_ifs at h ⊢ <;> try rfl
    rcases hrb : runBooking w.registry w.providerType with e' | result
    · rfl
    · rw [hrb] at h
      rcases Bool.eq_false_or_eq_true result.success with hres | hres
      · simp [hres] at h
      · simp [hres]
  · unfold executeBookingTask
    rcases hrb : runBooking w.registry w.providerType with e' | result
    · split_ifs <;> simp_all
    · split_ifs with h1 h2 h3 <;> try simp_all
      rcases Bool.eq_false_or_eq_true result.success with hres | hres <;>
        simp_all
  · intro h
    unfold executeBookingTask at h ⊢
    split_ifs at h ⊢ <;> try exact Except.noConfusion h
    rcases hrb : runBooking w.registry w.providerType with e' | result
    · rw [hrb] at h
      exact Except.noConfusion h
    · rw [hrb] at h
      rcases Bool.eq_false_or_eq_true result.success with hres | hres
      · simp only [hres]
        cases hat : t.attemptedAt <;> simp [hat]
      · simp [hres] at h
  · unfold runBooking lookupHandler
    rcases hf : w.registry.find? (fun kv => kv.1 == strLower w.providerType)
        with _ | kv
    · rw [hf]
      rw [List.find?_eq_none] at hf
      constructor
      · intro _ kv hkv
        have := hf kv hkv
        simpa using this
      · intro _
        exact ⟨w.providerType, rfl⟩
    · rw [hf]
      have hkv := List.find?_some hf
      have hmem := List.mem_of_find?_eq_some hf
      constructor
      · intro ⟨e, he⟩
        exact Except.noConfusion he
      · intro hall
        exact absurd (by simpa using hkv) (hall kv hmem)

/-- **C8** witness: the success path at a concrete world rewrites the task
to `success` with a cleared error message and a stamped attempt time. -/
theorem C8_executor_paths_witness :
    (executeBookingTask execW8 5 execT8).2 =
      { status := TaskStatus.success, errorMessage := none,
        attemptedAt := some (execT8.attemptedAt.getD 5) } :=
  (C8_executor_paths execW8 5 execT8).2.2.1 (by rfl)

/-- **C9** (corrected).  The dedicated endpoints do only advance the state
machine: cancel is accepted exactly from `pending`, reactivation to
`pending` is accepted exactly from `cancelled` with the occurrence not in
the past, execution is accepted exactly from `pending` and ends in
`success` or `failed`, the generic update never reverts a non-pending
task to `pending`, and deletion is accepted exactly on
`cancelled`/`failed`/`success`.  But `success` and `failed` are NOT
terminal: the `PATCH` endpoint accepts any status overwrite other than a
revert to `pending`. -/
theorem C9_state_machine :
    (∀ t : RTask, (∃ t', cancelEndpoint t = Except.ok t') ↔
        t.status = TaskStatus.pending) ∧
    (∀ (t t' : RTask), cancelEndpoint t = Except.ok t' →
        t'.status = TaskStatus.cancelled) ∧
    (∀ (now : Int) (t : RTask),
        (∃ t', reactivateEndpoint now t = Except.ok t') ↔
          (t.status = TaskStatus.cancelled ∧ now ≤ t.scheduledDate)) ∧
    (∀ (now : Int) (t t' : RTask),
        reactivateEndpoint now t = Except.ok t' →
          t'.status = TaskStatus.pending ∧ t'.errorMessage = none) ∧
    (∀ (now : Int) (handlerOk : Bool) (failMsg : String) (t : RTask),
        (∃ t', executeEndpoint now handlerOk failMsg t = Except.ok t') ↔
          t.status = TaskStatus.pending) ∧
    (∀ (now : Int) (handlerOk : Bool) (failMsg : String) (t t' : RTask),
        executeEndpoint now handlerOk failMsg t = Except.ok t' →
          (t'.status = TaskStatus.success ∨ t'.status = TaskStatus.failed)) ∧
    (∀ (t : RTask) (u : BookingTaskUpdate) (t' : RTask),
        updateEndpoint t u = Except.ok t' → t.status ≠ TaskStatus.pending →
          t'.status ≠ TaskStatus.pending) ∧
    (∀ (t : RTask) (u : BookingTaskUpdate),
        ¬(t.status ≠ TaskStatus.pending ∧ u.status = some TaskStatus.pending) →
          updateEndpoint t u = Except.ok (updateBookingTaskCrud t u)) ∧
    (∀ t : RTask, deleteEndpoint t = Except.ok () ↔
        (t.status = TaskStatus.cancelled ∨ t.status = TaskStatus.failed ∨
         t.status = TaskStatus.success)) := by
  refine ⟨?_, ?_, ?_, ?_, ?_, ?_, ?_, ?_, ?_⟩
  · intro t
    unfold cancelEndpoint
    split_ifs with h <;> simp_all
  · intro t t' h
    unfold cancelEndpoint at h
    split_ifs at h with hs
    have := Except.ok.inj h
    subst this
    rfl
  · intro now t
    unfold reactivateEndpoint
    split_ifs with h1 h2 <;> simp_all <;> try omega
  · intro now t t' h
    unfold reactivateEndpoint at h
    split_ifs at h with h1 h2
    have := Except.ok.inj h
    subst this
    exact ⟨rfl, rfl⟩
  · intro now handlerOk failMsg t
    simp only [executeEndpoint]
    split_ifs with h1 h2 <;> simp_all
  · intro now handlerOk failMsg t t' h
    simp only [executeEndpoint] at h
    split_ifs at h with h1 h2
    · have := Except.ok.inj h
      subst this
      exact Or.inl rfl
    · have := Except.ok.inj h
      subst this
      exact Or.inr rfl
  · intro t u t' h hnp
    unfold updateEndpoint at h
    split_ifs at h with hcond
    have := Except.ok.inj h
    subst this
    rcases hu : u.status with _ | s
    · simpa [updateBookingTaskCrud, hu] using hnp
    · intro hps
      refine hcond ⟨hnp, ?_⟩
      rw [hu]
      have hs : s = TaskStatus.pending := by
        simpa [updateBookingTaskCrud, hu] using hps
      rw [hs]
  · intro t u h
    unfold updateEndpoint
    split_ifs
    rfl
  · intro t
    unfold deleteEndpoint
    split_ifs with h <;> simp_all

/-- **C9** counterexample: `PATCH` accepts `success → cancelled` and
`failed → success`, so `success` and `failed` are not terminal. -/
theorem C9_counterexample :
    updateEndpoint ⟨TaskStatus.success, 100, none, none, none⟩
        ⟨some TaskStatus.cancelled, none, none, none⟩ =
      Except.ok ⟨TaskStatus.cancelled, 100, none, none, none⟩ ∧
    updateEndpoint ⟨TaskStatus.failed, 100, none, none, some "boom"⟩
        ⟨some TaskStatus.success, none, none, none⟩ =
      Except.ok ⟨TaskStatus.success, 100, none, none, some "boom"⟩ := by
  constructor <;> rfl

/-- **C9** witness: reactivation of a concrete cancelled future task is
accepted. -/
theorem C9_state_machine_witness :
    ∃ t', reactivateEndpoint 50
        ⟨TaskStatus.cancelled, 100, none, none, some "x"⟩ = Except.ok t' :=
  (C9_state_machine.2.2.1 50
    ⟨TaskStatus.cancelled, 100, none, none, some "x"⟩).mpr
    (by exact ⟨rfl, by decide⟩)
